import Mathlib

/-!
Verification development for the match-magic reconciliation tool.

The TypeScript sources are embedded shallowly:

* JS scalar cell values are modelled by the inductive `JValue`
  (`null` and `undefined` are merged into `JValue.null`, since every
  source-code test relevant to the claims treats them alike via
  `value === null || value === undefined`).
* JS numbers are modelled by `ℚ` (exact rational arithmetic).  The special
  floating-point values `NaN` and `Infinity` have no counterpart in `ℚ`;
  wherever the source can produce or test them this is recorded in the
  doc comment of the embedded definition.
* JS strings are Lean `String`s; the case-mapping and whitespace helpers
  are re-implemented over the character list so that they compute.
* Fallible code (`throw`) is `Except String`.
-/

/-- Scalar cell value of the tool: JS `null`/`undefined`, number, string or
boolean (dates are out of scope for the claims that use `JValue`). -/
inductive JValue where
  | null : JValue
  | num  : ℚ → JValue
  | str  : String → JValue
  | bool : Bool → JValue
deriving DecidableEq, Repr

/-- Whitespace class of the JS regex `\s` restricted to ASCII
(tab, line feed, vertical tab, form feed, carriage return, space). -/
def jsIsWhitespace (c : Char) : Bool :=
  c = ' ' || c = '\t' || c = '\n' || c = '\x0d' || c = '\x0b' || c = '\x0c'

/-- JS `String.prototype.trim`: drop leading and trailing whitespace. -/
def jsTrim (s : String) : String :=
  ⟨(s.data.dropWhile jsIsWhitespace).reverse.dropWhile jsIsWhitespace |>.reverse⟩

/-- JS `String.prototype.toLowerCase`, character by character (ASCII). -/
def jsToLower (s : String) : String := ⟨s.data.map Char.toLower⟩

/-- JS `String.prototype.toUpperCase`, character by character (ASCII). -/
def jsToUpper (s : String) : String := ⟨s.data.map Char.toUpper⟩

/-- Global removal of every character satisfying `p`, the model of the JS
idiom `value.replace(/[…]/g, "")` used by the numeric parsers. -/
def removeCharsBy (p : Char → Bool) (s : String) : String :=
  ⟨s.data.filter (fun c => ¬ p c)⟩

/-- Value of a list of decimal digit characters. -/
def digitsToNat (cs : List Char) : ℕ :=
  cs.foldl (fun acc c => 10 * acc + (c.toNat - '0'.toNat)) 0

/-- Exponent suffix of a JS float literal: an optional sign followed by
digits.  Returns `0` when no digit follows, matching the JS behaviour of
ignoring an incomplete exponent part. -/
def jsParseExponent (cs : List Char) : ℤ :=
  let signAndRest : ℤ × List Char :=
    match cs with
    | '+' :: r => (1, r)
    | '-' :: r => (-1, r)
    | r => (1, r)
  let ds := signAndRest.2.takeWhile Char.isDigit
  if ds = [] then 0 else signAndRest.1 * (digitsToNat ds : ℤ)

/-- Model of JS `parseFloat`: skip leading whitespace, then read the longest
prefix that is a decimal literal (optional sign, integer digits, optional
fraction, optional exponent).  `none` models the JS result `NaN` (no digit
could be read).  The JS literal `Infinity` lies outside the `ℚ` value
domain and is modelled as a parse failure. -/
def jsParseFloat (s : String) : Option ℚ :=
  let cs0 := s.data.dropWhile jsIsWhitespace
  let signAndRest : ℚ × List Char :=
    match cs0 with
    | '+' :: r => (1, r)
    | '-' :: r => (-1, r)
    | r => (1, r)
  let intDigits := signAndRest.2.takeWhile Char.isDigit
  let afterInt := signAndRest.2.dropWhile Char.isDigit
  let fracDigits :=
    match afterInt with
    | '.' :: r => r.takeWhile Char.isDigit
    | _ => []
  let afterFrac :=
    match afterInt with
    | '.' :: r => r.dropWhile Char.isDigit
    | r => r
  if intDigits = [] ∧ fracDigits = [] then none
  else
    let mant : ℚ :=
      (digitsToNat intDigits : ℚ) + (digitsToNat fracDigits : ℚ) / ((10 : ℚ) ^ fracDigits.length)
    let expo : ℤ :=
      match afterFrac with
      | c :: r => if c = 'e' ∨ c = 'E' then jsParseExponent r else 0
      | [] => 0
    some (signAndRest.1 * mant * (10 : ℚ) ^ expo)

/-- Characters removed by `ExpressionEvaluator.parseNumber`
(source regex `/[,$\s%]/g`): comma, dollar sign, whitespace, percent. -/
def eeStripChar (c : Char) : Bool :=
  c = ',' || c = '$' || c = '%' || jsIsWhitespace c

/-- Characters removed by `DataTransformer.parseNumber`
(source regex `/[,$\s]/g`): comma, dollar sign, whitespace (no percent). -/
def dtStripChar (c : Char) : Bool :=
  c = ',' || c = '$' || jsIsWhitespace c

/-- Embedding of `ExpressionEvaluator.parseNumber`
(src/src/utils/expressionEvaluator.ts, lines 188-212): null/undefined and
the empty string give `0`; numbers pass through (the `isNaN` guard of the
source has no effect on `ℚ`); a string equal to `N/A` up to case gives `0`,
any other string is stripped of `, $ whitespace %` and parsed with
`parseFloat`, `0` on failure; booleans give `1`/`0`. -/
def parseNumberEE (v : JValue) : ℚ :=
  match v with
  | .null => 0
  | .str s =>
      if s = "" then 0
      else if jsToUpper s = "N/A" then 0
      else
        let cleaned := removeCharsBy eeStripChar s
        if cleaned = "" then 0
        else (jsParseFloat cleaned).getD 0
  | .num q => q
  | .bool b => if b then 1 else 0

/-- Embedding of `DataTransformer.parseNumber`
(src/src/utils/dataTransformation.ts, lines 193-202): numbers pass through
unchecked, strings are stripped of `, $ whitespace` (percent is kept) and
parsed with `parseFloat` (`0` on `NaN`), every other value — including
booleans — gives `0`. -/
def parseNumberDT (v : JValue) : ℚ :=
  match v with
  | .num q => q
  | .str s => (jsParseFloat (removeCharsBy dtStripChar s)).getD 0
  | _ => 0

/-- Rounding mode parameter of the `round_number` transformation step. -/
inductive RoundingMode where
  | round | ceil | floor
deriving DecidableEq, Repr

/-- JS `Math.round`: the integer nearest to `x`, ties rounded toward
positive infinity (`⌊x + 1/2⌋`). -/
def jsMathRound (x : ℚ) : ℤ := ⌊x + 1 / 2⌋

/-- Numeric core of `TransformationEngine.roundNumber`
(src/src/utils/expressionEvaluator.ts, lines 743-761): scale by
`10 ^ decimalPlaces`, apply `Math.ceil` / `Math.floor` / `Math.round`,
scale back.  The model computes in exact rational arithmetic; the JS
original computes in binary floating point, which agrees on the inputs
used by the theorems below (integers and exact halves at scale 1). -/
def roundNumberQ (x : ℚ) (decimalPlaces : ℕ) (mode : RoundingMode) : ℚ :=
  let multiplier : ℚ := (10 : ℚ) ^ decimalPlaces
  match mode with
  | .ceil => (⌈x * multiplier⌉ : ℚ) / multiplier
  | .floor => (⌊x * multiplier⌋ : ℚ) / multiplier
  | .round => (jsMathRound (x * multiplier) : ℚ) / multiplier

/-- Closed set of transformation step kinds
(src/src/utils/expressionEvaluator.ts, `TransformationType`). -/
inductive TransformationType where
  | clean_string | trim | lowercase | uppercase | remove_special_chars
  | cast_to_date | cast_to_number | cast_to_string | convert_timezone
  | format_date | currency_conversion | round_number | replace_text
  | extract_substring | standardize_format | conditional | absolute_value
  | negate_number | scale_number | fill_null | flag_missing | exclude_if_null
deriving DecidableEq, Repr

/-- JS `Array.prototype.findIndex`: index of the first element satisfying
`p`, and `-1` when there is none. -/
def jsFindIndex (p : α → Bool) : List α → ℤ
  | [] => -1
  | x :: xs =>
      if p x then 0
      else
        let r := jsFindIndex p xs
        if r = -1 then -1 else r + 1

/-- Cross-step portion of `TransformationEngine.validatePipeline`
(src/src/utils/expressionEvaluator.ts, lines 1014-1025), applied to the
list of step kinds of the pipeline (the code inspects only `s.type`).
The source guards the ordering check with
`hasTimezoneConversion && !hasDateCast` and then compares the two
`findIndex` results. -/
def crossStepOrderErrors (types : List TransformationType) : List String :=
  if types.any (· = .convert_timezone) && !(types.any (· = .cast_to_date)) then
    if jsFindIndex (· = .cast_to_date) types > jsFindIndex (· = .convert_timezone) types then
      ["Timezone conversion should come after date casting"]
    else []
  else []

/-- Word character of the JS regex classes `\w` / `\b`. -/
def jsIsWordChar (c : Char) : Bool := c.isAlphanum || c = '_'

/-- One pass of JS `String.prototype.replace` with a global regex
`\bw…\b` (or `\bw…` when `trailingBoundary = false`): scan the input once,
replacing every occurrence of `w` that sits at word boundaries; the
replacement text is emitted without being rescanned.  `prev` is the
character just before the current position, `fuel` bounds the recursion
(callers pass the input length, which always suffices). -/
def jsReplaceWordGo (w repl : List Char) (trailingBoundary : Bool) :
    ℕ → Option Char → List Char → List Char
  | 0, _, cs => cs
  | _ + 1, _, [] => []
  | fuel + 1, prev, c :: rest =>
      let cs := c :: rest
      let prevOK := match prev with
        | none => true
        | some p => !jsIsWordChar p
      let matched := w.isPrefixOf cs
      let tail := cs.drop w.length
      let trailOK := !trailingBoundary ||
        (match tail with
         | [] => true
         | t :: _ => !jsIsWordChar t)
      if matched && prevOK && trailOK && !w.isEmpty then
        repl ++ jsReplaceWordGo w repl trailingBoundary fuel w.getLast? tail
      else
        c :: jsReplaceWordGo w repl trailingBoundary fuel (some c) rest

/-- JS `s.replace(new RegExp("\\b" + w + maybe "\\b", "g"), repl)`. -/
def jsReplaceWord (w repl : String) (trailingBoundary : Bool) (s : String) : String :=
  ⟨jsReplaceWordGo w.data repl.data trailingBoundary (s.data.length + 1) none s.data⟩

/-- Helper names of the conditional evaluation context
(src/src/utils/expressionEvaluator.ts, lines 805-813). -/
def conditionalHelperNames : List String :=
  ["isNull", "isEmpty", "isNumber", "isString", "contains",
   "startsWith", "endsWith", "abs", "length"]

/-- String rewriting performed by `TransformationEngine.applyConditional`
before evaluation (src/src/utils/expressionEvaluator.ts, lines 817-829):
`\bvalue\b` is renamed to `evaluationContext.value` and every helper call
`\bh(` to `evaluationContext.h(`.  No other analysis of the condition
string is performed. -/
def buildEvaluable (condition : String) : String :=
  let withValue := jsReplaceWord "value" "evaluationContext.value" true condition
  conditionalHelperNames.foldl
    (fun acc h => jsReplaceWord (h ++ "(") ("evaluationContext." ++ h ++ "(") false acc)
    withValue

/-- Fate of a conditional expression string inside `applyConditional`:
either it reaches the host-language evaluator (`new Function`) as the given
code string, or it is rejected beforehand with an error. -/
inductive ConditionFate where
  | hostEval : String → ConditionFate
  | rejected : String → ConditionFate
deriving DecidableEq, Repr

/-- Embedding of the condition-handling path of
`TransformationEngine.applyConditional`
(src/src/utils/expressionEvaluator.ts, lines 797-832): the condition
string is rewritten by `buildEvaluable` and handed to the JS `Function`
constructor.  The source contains no validation or parsing step, so no
input is ever mapped to `ConditionFate.rejected`. -/
def applyConditionalFate (condition : String) : ConditionFate :=
  .hostEval (buildEvaluable condition)

/-- Maximal runs of word characters in a string (fuel-driven scan). -/
def wordRunsGo : ℕ → List Char → List (List Char)
  | 0, _ => []
  | _ + 1, [] => []
  | fuel + 1, c :: r =>
      if jsIsWordChar c then
        (c :: r.takeWhile jsIsWordChar) :: wordRunsGo fuel (r.dropWhile jsIsWordChar)
      else
        wordRunsGo fuel r

/-- Identifier tokens of a condition string: maximal word-character runs
that do not start with a digit. -/
def identifierTokens (s : String) : List String :=
  ((wordRunsGo (s.data.length + 1) s.data).filter
    (fun run => match run with
      | [] => false
      | c :: _ => !c.isDigit)).map (fun run => (⟨run⟩ : String))

/-- Necessary condition, written from the safe grammar of the
specification, for a condition string to be a sentence of that grammar:
every identifier it mentions is the bound name `value` or one of the fixed
helpers.  A string mentioning any other identifier (for example raw host
code such as `alert(1)`) is not a sentence of the safe grammar. -/
def specConditionIdentifiersOK (s : String) : Bool :=
  (identifierTokens s).all
    (fun t => t = "value" || conditionalHelperNames.contains t)

/-- Clock readings injected into the engine: the three forms produced by
`new Date().toISOString().split("T")[0]`, `new Date().toISOString()` and
`Date.now()` at run time. -/
structure EngineClock where
  isoDate : String
  isoDateTime : String
  epochMs : ℚ
deriving DecidableEq, Repr

/-- Parameter bag of the `fill_null` transformation step. -/
structure FillNullParams where
  fillValue : JValue
  treatEmptyAsNull : Bool
  treatZeroAsNull : Bool
deriving DecidableEq, Repr

/-- Embedding of `TransformationEngine.fillNull`
(src/src/utils/expressionEvaluator.ts, lines 887-910): a value that is
null, an empty or all-whitespace string (with `treatEmptyAsNull`), or zero
(with `treatZeroAsNull`) is replaced by `fillValue`, with the three string
sentinels resolving to the injected clock; any other value passes
through. -/
def fillNull (clock : EngineClock) (v : JValue) (p : FillNullParams) : JValue :=
  let isNull := v = .null
  let isEmpty := p.treatEmptyAsNull &&
    (v = .str "" || (match v with | .str s => jsTrim s = "" | _ => false))
  let isZero := p.treatZeroAsNull && (v = .num 0 || v = .str "0")
  if isNull || isEmpty || isZero then
    match p.fillValue with
    | .str "current_date" => .str clock.isoDate
    | .str "current_datetime" => .str clock.isoDateTime
    | .str "current_timestamp" => .num clock.epochMs
    | fv => fv
  else v

/-- Numeric coercion used by the numeric transformation steps:
`typeof value === "number" ? value : parseFloat(String(value))`, with
`none` standing for the JS result `NaN`.  `String` of the non-number
values is inlined (`null → "null"`, booleans → `"true"`/`"false"`), all of
which fail `parseFloat`. -/
def jsNumCoerce (v : JValue) : Option ℚ :=
  match v with
  | .num q => some q
  | .str s => jsParseFloat s
  | .bool b => jsParseFloat (if b then "true" else "false")
  | .null => jsParseFloat "null"

/-- Step kinds of `TransformationEngine.applyTransformation` that the
claims exercise, each carrying its (typed) parameter bag.  The remaining
kinds of the closed step set rely on JS date, regex or host-code
primitives and are not needed by any claim, so they are left outside this
modelled subset. -/
inductive MStepKind where
  | fill_null (p : FillNullParams)
  | absolute_value
  | negate_number
  | scale_number (factor : ℚ)
  | round_number (decimalPlaces : ℕ) (mode : RoundingMode)
deriving DecidableEq, Repr

/-- Embedding of `TransformationEngine.applyTransformation`
(src/src/utils/expressionEvaluator.ts, lines 442-517) on the modelled
step kinds.  The first guard of the source —
`if (value === null || value === undefined) return value;` — returns every
null input unchanged before any step kind, `fill_null` included, is
dispatched. -/
def applyTransformationM (clock : EngineClock) (v : JValue) (k : MStepKind) :
    Except String JValue :=
  if v = .null then .ok v
  else
    match k with
    | .fill_null p => .ok (fillNull clock v p)
    | .absolute_value =>
        match jsNumCoerce v with
        | some q => .ok (.num |q|)
        | none => .error "Cannot get absolute value of non-numeric value"
    | .negate_number =>
        match jsNumCoerce v with
        | some q => .ok (.num (-q))
        | none => .error "Cannot negate non-numeric value"
    | .scale_number factor =>
        match jsNumCoerce v with
        | some q => .ok (.num (q * factor))
        | none => .error "Cannot scale non-numeric value"
    | .round_number d m =>
        match jsNumCoerce v with
        | some q => .ok (.num (roundNumberQ q d m))
        | none => .error "Unable to round non-numeric value"

/-- Result record of a single pipeline step
(`TransformationResult.stepResults` entries). -/
structure StepResult (V : Type) where
  stepId : String
  success : Bool
  value : V
  error : Option String
deriving DecidableEq, Repr

/-- Result record of a whole pipeline run (`TransformationResult`). -/
structure PipelineResult (V : Type) where
  success : Bool
  originalValue : V
  transformedValue : V
  error : Option String
  stepResults : List (StepResult V)
deriving DecidableEq, Repr

section PipelineEngine

variable {V S : Type}

/-- Embedding of `TransformationEngine.executeStep`
(src/src/utils/expressionEvaluator.ts, lines 367-378), generic in the
step evaluator `applyT` (the source method dispatches on the step kind and
converts a thrown error into a failed result carrying the unchanged input
value). -/
def executeStep (applyT : V → S → Except String V) (stepId : S → String)
    (v : V) (s : S) : StepResult V :=
  match applyT v s with
  | .ok v2 => ⟨stepId s, true, v2, none⟩
  | .error e => ⟨stepId s, false, v, some e⟩

/-- Stable ascending sort of the pipeline steps by their `order` key, the
model of `[...pipeline.steps].sort((a, b) => a.order - b.order)` (JS array
sort is stable). -/
def sortSteps (stepOrder : S → ℤ) (steps : List S) : List S :=
  List.insertionSort (fun a b => stepOrder a ≤ stepOrder b) steps

/-- Fold of `TransformationEngine.executePipeline` over the sorted steps:
returns the step results, the final value and the overall success flag.
The current value advances to the step output on success and stays at the
step input on failure (source lines 400-405). -/
def runSteps (applyT : V → S → Except String V) (stepId : S → String)
    (v : V) : List S → List (StepResult V) × V × Bool
  | [] => ([], v, true)
  | s :: rest =>
      let r := executeStep applyT stepId v s
      let next := if r.success then r.value else v
      let rs := runSteps applyT stepId next rest
      (r :: rs.1, rs.2.1, r.success && rs.2.2)

/-- Embedding of `TransformationEngine.executePipeline`
(src/src/utils/expressionEvaluator.ts, lines 383-415). -/
def executePipeline (applyT : V → S → Except String V) (stepId : S → String)
    (stepOrder : S → ℤ) (v : V) (steps : List S) : PipelineResult V :=
  let sorted := sortSteps stepOrder steps
  let run := runSteps applyT stepId v sorted
  { success := run.2.2
    originalValue := v
    transformedValue := run.2.1
    error := if run.2.2 then none else some "One or more transformation steps failed"
    stepResults := run.1 }

/-- Specification-side value chain: the input of each step in sequence,
where a failing step propagates its own unchanged input to the next
step. -/
def stepInputs (applyT : V → S → Except String V) (stepId : S → String)
    (v : V) : List S → List V
  | [] => []
  | s :: rest =>
      let r := executeStep applyT stepId v s
      v :: stepInputs applyT stepId (if r.success then r.value else v) rest

/-- Specification-side final value of the chain of `stepInputs`. -/
def chainValue (applyT : V → S → Except String V) (stepId : S → String)
    (v : V) : List S → V
  | [] => v
  | s :: rest =>
      let r := executeStep applyT stepId v s
      chainValue applyT stepId (if r.success then r.value else v) rest

end PipelineEngine

/-- Row of a dataset: an association list from column name to numeric cell
value.  The claims about the reconciliation engines only exercise numeric
cells, so the cell domain is `ℚ`; an absent key models the JS value
`undefined` and lookups return `Option ℚ`. -/
def RRow : Type := List (String × ℚ)

instance : DecidableEq RRow := by unfold RRow; infer_instance

/-- JS property read `row[col]`. -/
def rowGet (r : RRow) (col : String) : Option ℚ := List.lookup col r

/-- Column mapping restricted to the shape the reconciliation claims use:
an optional single source column and an optional target column (array
selectors and formula mappings are other configurations of the same record
and are not needed by any claim). -/
structure CMapping where
  sourceColumn : Option String
  targetColumn : Option String
deriving DecidableEq, Repr

/-- Match strategy of the reconciliation configuration. -/
inductive MatchStrategy where
  | exact | fuzzy | smart
deriving DecidableEq, Repr

/-- Configuration of the in-memory `ReconciliationEngine`
(src/unnamed/part_006, `ReconciliationConfig`). -/
structure RecCfg where
  tolerance : ℚ
  matchStrategy : MatchStrategy
deriving DecidableEq, Repr

/-- Substring test, the model of JS `String.prototype.includes`. -/
def strContainsSub (sub : String) : List Char → Bool
  | [] => sub.data.isEmpty
  | c :: rest => sub.data.isPrefixOf (c :: rest) || strContainsSub sub rest

/-- JS `s.includes(sub)` on a whole string. -/
def strContains (s sub : String) : Bool := strContainsSub sub s.data

namespace Engine6

/-- Embedding of `ReconciliationEngine.getFieldWeight`
(src/unnamed/part_006, lines 343-359): id/reference and amount/value weigh
3, date and description/details weigh 2, default 1 (substring tests on the
lowercased name). -/
def getFieldWeight (fieldName : String) : ℚ :=
  let lowerField := jsToLower fieldName
  if strContains lowerField "id" || strContains lowerField "reference" then 3
  else if strContains lowerField "amount" || strContains lowerField "value" then 3
  else if strContains lowerField "date" then 2
  else if strContains lowerField "description" || strContains lowerField "details" then 2
  else 1

/-- Embedding of `ReconciliationEngine.valuesMatch`
(src/unnamed/part_006, lines 207-234) on numeric/undefined cells: strict
equality first (including `undefined === undefined`), then the numeric
branch `|n1 − n2| ≤ tolerance`; a defined/undefined pair falls through all
branches to `false`. -/
def valuesMatch (v1 v2 : Option ℚ) (tolerance : ℚ) : Bool :=
  if v1 = v2 then true
  else
    match v1, v2 with
    | some a, some b => |a - b| ≤ tolerance
    | _, _ => false

/-- Embedding of `ReconciliationEngine.calculateMatchConfidence`
(src/unnamed/part_006, lines 164-202): weighted fraction of mappings whose
mapped cells match; mappings with a missing (or empty, hence JS-falsy)
column are skipped; zero total weight gives confidence 0. -/
def calculateMatchConfidence (sourceRow targetRow : RRow)
    (mappings : List CMapping) (cfg : RecCfg) : ℚ :=
  let acc := mappings.foldl
    (fun (acc : ℚ × ℚ) m =>
      match m.sourceColumn, m.targetColumn with
      | some sc, some tc =>
          if sc = "" ∨ tc = "" then acc
          else
            let sourceValue := rowGet sourceRow sc
            let targetValue := rowGet targetRow tc
            let weight := getFieldWeight sc
            if valuesMatch sourceValue targetValue cfg.tolerance then
              (acc.1 + weight, acc.2 + weight)
            else
              (acc.1 + weight, acc.2)
      | _, _ => acc)
    (0, 0)
  if acc.1 > 0 then acc.2 / acc.1 else 0

/-- Structured model of one discrepancy message
`"<targetColumn>: <sv> ≠ <tv>"` of `calculateDiscrepancies`: the target
column name with the two compared cell values (the JS number-to-string
formatting of the message text is not modelled). -/
def Discrepancy : Type := String × Option ℚ × Option ℚ

instance : DecidableEq Discrepancy := by unfold Discrepancy; infer_instance

/-- Embedding of `ReconciliationEngine.calculateDiscrepancies`
(src/unnamed/part_006, lines 263-303) on numeric/undefined cells: for each
usable mapping, two numbers differ when `|n1 − n2|` exceeds
`config.tolerance || 0.000001` (so a zero tolerance falls back to `1e-6`,
JS `||` being falsy on `0`); a defined/undefined pair differs via the
string fallback; two undefined cells do not differ. -/
def calculateDiscrepancies (sourceRow targetRow : RRow)
    (mappings : List CMapping) (cfg : RecCfg) : List Discrepancy :=
  mappings.filterMap
    (fun m =>
      match m.sourceColumn, m.targetColumn with
      | some sc, some tc =>
          if sc = "" ∨ tc = "" then none
          else
            let sourceValue := rowGet sourceRow sc
            let targetValue := rowGet targetRow tc
            let threshold := if cfg.tolerance = 0 then (1 : ℚ) / 1000000 else cfg.tolerance
            let areDifferent :=
              match sourceValue, targetValue with
              | some a, some b => decide (|a - b| > threshold)
              | none, none => false
              | _, _ => true
            if areDifferent then some (tc, sourceValue, targetValue) else none
      | _, _ => none)

/-- Preprocessed row pair produced by
`DataTransformer.transformDataWithVirtualFields` (`TransformedData`). -/
structure TData where
  originalRow : RRow
  transformedRow : RRow
deriving DecidableEq

/-- Embedding of `DataTransformer.transformDataWithVirtualFields`
(src/src/utils/dataTransformation.ts, lines 10-39) for the configurations
the reconciliation claims use — no virtual fields, no transformation
pipelines, no formula mappings — where the function reduces to copying
every row into a `TransformedData` record. -/
def transformIdentity (data : List RRow) : List TData :=
  data.map (fun r => ⟨r, r⟩)

/-- Embedding of `ReconciliationEngine.findMatches`
(src/unnamed/part_006, lines 125-159): every target whose confidence
exceeds `0.3` becomes a candidate, candidates are sorted by confidence
descending (stable, as JS sort), and the strategy keeps: `exact` — the
candidates above `0.8`; `fuzzy` — the first three; `smart` — those above
`0.8` when any exists, otherwise the single best. -/
def findMatches (sourceItem : TData) (targetItems : List TData)
    (mappings : List CMapping) (cfg : RecCfg) : List (TData × ℚ) :=
  let found := targetItems.filterMap
    (fun targetItem =>
      let confidence :=
        calculateMatchConfidence sourceItem.transformedRow targetItem.transformedRow mappings cfg
      if confidence > 3 / 10 then some (targetItem, confidence) else none)
  let sorted := List.insertionSort (fun a b => b.2 ≤ a.2) found
  match cfg.matchStrategy with
  | .exact => sorted.filter (fun m => m.2 > 8 / 10)
  | .fuzzy => sorted.take 3
  | .smart =>
      let exactMatches := sorted.filter (fun m => m.2 > 8 / 10)
      if exactMatches.isEmpty then sorted.take 1 else exactMatches

/-- Identity of a row for target-side deduplication.  `fromField` carries
the value found in an id-like column (the source stringifies it, which is
injective on `ℚ` cells); `fromHash` carries the key-sorted row content,
the idealisation of the 32-bit content hash of `hashRow` (the model treats
the hash as collision-free). -/
inductive RowKey where
  | fromField : ℚ → RowKey
  | fromHash : List (String × ℚ) → RowKey
deriving DecidableEq

/-- JS `a || b` on optional numeric property reads (`0` is falsy). -/
def jsOrQ (a b : Option ℚ) : Option ℚ :=
  match a with
  | some q => if q = 0 then b else some q
  | none => b

/-- Lexicographic order on strings by character codes. -/
def charListLe : List Char → List Char → Bool
  | [], _ => true
  | _ :: _, [] => false
  | a :: as, b :: bs => if a = b then charListLe as bs else decide (a.toNat < b.toNat)

/-- Id-like fields probed by `getRowId`, paired with their uppercase forms
(the source probes `row[f] || row[f.toUpperCase()] || row[f.toLowerCase()]`
with `f` already lowercase). -/
def idFields : List (String × String) :=
  [("id", "ID"), ("transaction_id", "TRANSACTION_ID"),
   ("reference", "REFERENCE"), ("ref_number", "REF_NUMBER")]

/-- Embedding of `ReconciliationEngine.getRowId`
(src/unnamed/part_006, lines 432-445): probe the id-like fields in order
(JS `||` chain over the three casings) and return the first defined value;
otherwise fall back to the content hash of the key-sorted row. -/
def getRowId (row : RRow) : RowKey :=
  let probe := idFields.findSome?
    (fun f => jsOrQ (jsOrQ (rowGet row f.1) (rowGet row f.2)) (rowGet row f.1))
  match probe with
  | some v => .fromField v
  | none => .fromHash (List.insertionSort (fun a b => charListLe a.1.data b.1.data) row)

/-- Verdict statuses of a reconciliation result. -/
inductive RStatus where
  | matched | discrepancy | unmatchedSource | unmatchedTarget
deriving DecidableEq, Repr

/-- Reconciliation verdict (`ReconciliationResult`), restricted to the
fields the claims inspect; the random `id` and the engine-specific
line/amount fields are omitted. -/
structure Verdict where
  status : RStatus
  sourceRow : Option RRow
  targetRow : Option RRow
  confidence : Option ℚ
  discrepancies : List Discrepancy
deriving DecidableEq

/-- Embedding of the matching phase of `ReconciliationEngine.reconcile`
(src/unnamed/part_006, lines 53-119): every source item emits one verdict
per surviving match (or one unmatched-source verdict), then each target
item whose row id was never claimed emits an unmatched-target verdict. -/
def reconcile (sourceData targetData : List RRow)
    (mappings : List CMapping) (cfg : RecCfg) : List Verdict :=
  let transformedSource := transformIdentity sourceData
  let transformedTarget := transformIdentity targetData
  let sourceVerdicts := transformedSource.flatMap
    (fun sourceItem =>
      let found := findMatches sourceItem transformedTarget mappings cfg
      if found.isEmpty then
        [⟨.unmatchedSource, some sourceItem.transformedRow, none, none, []⟩]
      else
        found.map (fun m =>
          let discrepancies :=
            calculateDiscrepancies sourceItem.transformedRow m.1.transformedRow mappings cfg
          ⟨if discrepancies.isEmpty then .matched else .discrepancy,
            some sourceItem.transformedRow, some m.1.transformedRow, some m.2,
            discrepancies⟩))
  let matchedTargetIds := (sourceVerdicts.filterMap (fun r => r.targetRow)).map getRowId
  let targetVerdicts := transformedTarget.filterMap
    (fun targetItem =>
      if getRowId targetItem.transformedRow ∈ matchedTargetIds then none
      else some (⟨.unmatchedTarget, none, some targetItem.transformedRow, none, []⟩ : Verdict))
  sourceVerdicts ++ targetVerdicts

end Engine6

namespace Engine4

/-- Tolerance unit of the streaming reconciliation configuration. -/
inductive TolUnit where
  | minutes | hours | days | amount | percentage | exact
deriving DecidableEq, Repr

/-- Configuration of the `StreamingReconciliationEngine`
(src/unnamed/part_004, `StreamingReconciliationConfig`), restricted to the
fields the matching phase reads. -/
structure SCfg where
  tolerance : ℚ
  toleranceUnit : TolUnit
  matchStrategy : MatchStrategy
deriving DecidableEq, Repr

/-- Sorted record of the streaming engine (`SortedRecord`): original
position, projected sort value (`none` is the JS `null`) and the
preprocessed row. -/
structure SRecord where
  originalIndex : ℕ
  sortValue : Option ℚ
  transformedRow : RRow
deriving DecidableEq

/-- Embedding of `StreamingReconciliationEngine.extractSortValue`
(src/unnamed/part_004, lines 593-642) on numeric cells: an empty sort key
or a missing/null cell gives `null`; a numeric cell passes through (the
date- and numeric-string branches concern string cells, which lie outside
the `ℚ` cell domain of this model). -/
def extractSortValue (record : RRow) (sortKey : String) : Option ℚ :=
  if sortKey = "" then none else rowGet record sortKey

/-- Embedding of `StreamingReconciliationEngine.compareSortValues`
(src/unnamed/part_004, lines 648-689): nulls compare lowest (two nulls are
equal); with zero tolerance or the `exact` unit the result is the sign of
the comparison; otherwise the unit-converted tolerance window is applied
(`minutes`/`hours`/`days` scale to milliseconds, `percentage` takes
`|source · tolerance|`) and values within the window compare equal. -/
def compareSortValues (sourceValue targetValue : Option ℚ)
    (tolerance : ℚ) (unit : TolUnit) : ℤ :=
  match sourceValue, targetValue with
  | none, none => 0
  | none, some _ => -1
  | some _, none => 1
  | some s, some t =>
      if tolerance = 0 ∨ unit = .exact then
        if s = t then 0 else if s < t then -1 else 1
      else
        let actualTolerance :=
          match unit with
          | .minutes => tolerance * 60 * 1000
          | .hours => tolerance * 60 * 60 * 1000
          | .days => tolerance * 24 * 60 * 60 * 1000
          | .percentage => |s * tolerance|
          | _ => tolerance
        if |s - t| ≤ actualTolerance then 0
        else if s < t then -1 else 1

/-- Embedding of `StreamingReconciliationEngine.getFieldWeight`
(src/unnamed/part_004, lines 764-770): amount/value weigh 3, date weighs
2, id/reference weigh 2 (unlike the in-memory engine, which weighs them
3), default 1. -/
def getFieldWeight (fieldName : String) : ℚ :=
  let lowerField := jsToLower fieldName
  if strContains lowerField "amount" || strContains lowerField "value" then 3
  else if strContains lowerField "date" then 2
  else if strContains lowerField "id" || strContains lowerField "reference" then 2
  else 1

/-- Embedding of `StreamingReconciliationEngine.valuesMatch`
(src/unnamed/part_004, lines 719-744) on numeric/undefined cells: strict
equality first, then the numeric branch with threshold
`config.tolerance || 0.000001` (zero tolerance falls back to `1e-6`); a
defined/undefined pair fails every branch. -/
def valuesMatch (v1 v2 : Option ℚ) (cfg : SCfg) : Bool :=
  if v1 = v2 then true
  else
    match v1, v2 with
    | some a, some b =>
        let threshold := if cfg.tolerance = 0 then (1 : ℚ) / 1000000 else cfg.tolerance
        decide (|a - b| ≤ threshold)
    | _, _ => false

/-- Embedding of `StreamingReconciliationEngine.calculateMatchConfidence`
(src/unnamed/part_004, lines 691-717): as in the in-memory engine, but
with this engine's field weights and value comparison. -/
def calculateMatchConfidence (sourceRow targetRow : RRow)
    (mappings : List CMapping) (cfg : SCfg) : ℚ :=
  let acc := mappings.foldl
    (fun (acc : ℚ × ℚ) m =>
      match m.sourceColumn, m.targetColumn with
      | some sc, some tc =>
          if sc = "" ∨ tc = "" then acc
          else
            let sourceValue := rowGet sourceRow sc
            let targetValue := rowGet targetRow tc
            let weight := getFieldWeight sc
            if valuesMatch sourceValue targetValue cfg then
              (acc.1 + weight, acc.2 + weight)
            else
              (acc.1 + weight, acc.2)
      | _, _ => acc)
    (0, 0)
  if acc.1 > 0 then acc.2 / acc.1 else 0

/-- Embedding of `StreamingReconciliationEngine.calculateDiscrepancies`
(src/unnamed/part_004, lines 841-874) on numeric/undefined cells: fixed
`1e-6` threshold; the recorded label is the source column name (the
in-memory engine records the target column name). -/
def calculateDiscrepancies (sourceRow targetRow : RRow)
    (mappings : List CMapping) : List Engine6.Discrepancy :=
  mappings.filterMap
    (fun m =>
      match m.sourceColumn, m.targetColumn with
      | some sc, some tc =>
          if sc = "" ∨ tc = "" then none
          else
            let sourceValue := rowGet sourceRow sc
            let targetValue := rowGet targetRow tc
            let areDifferent :=
              match sourceValue, targetValue with
              | some a, some b => decide (|a - b| > (1 : ℚ) / 1000000)
              | none, none => false
              | _, _ => true
            if areDifferent then some (sc, sourceValue, targetValue) else none
      | _, _ => none)

/-- Embedding of `StreamingReconciliationEngine.createMatchFromRecords`
(src/unnamed/part_004, lines 302-331): verdict for a claimed pair, with
status `matched` exactly when the discrepancy list is empty. -/
def createMatchFromRecords (sourceRecord targetRecord : SRecord)
    (mappings : List CMapping) (cfg : SCfg) : Engine6.Verdict :=
  let confidence :=
    calculateMatchConfidence sourceRecord.transformedRow targetRecord.transformedRow mappings cfg
  let discrepancies :=
    calculateDiscrepancies sourceRecord.transformedRow targetRecord.transformedRow mappings
  ⟨if discrepancies.isEmpty then .matched else .discrepancy,
    some sourceRecord.transformedRow, some targetRecord.transformedRow,
    some confidence, discrepancies⟩

/-- Embedding of `createUnmatchedSourceResult`
(src/unnamed/part_004, lines 807-822). -/
def createUnmatchedSourceResult (sourceRecord : SRecord) : Engine6.Verdict :=
  ⟨.unmatchedSource, some sourceRecord.transformedRow, none, some 0, []⟩

/-- Embedding of `createUnmatchedTargetResult`
(src/unnamed/part_004, lines 824-839). -/
def createUnmatchedTargetResult (targetRecord : SRecord) : Engine6.Verdict :=
  ⟨.unmatchedTarget, none, some targetRecord.transformedRow, some 0, []⟩

/-- Verdict instrumented with the index (into the target list) of the
target record it carries, used to state the one-claim-per-target
invariant; the engine itself emits only the `.v` component. -/
structure IVerdict where
  v : Engine6.Verdict
  tIdx : Option ℕ
deriving DecidableEq

/-- Window-start advance of `twoPointerReconciliation`
(src/unnamed/part_004, lines 231-244): starting from `j`, skip past
targets that compare strictly below the current source; the walk stops at
the list end, at an already-matched index, or at the first target not
below the source.  `fuel` bounds the recursion; every caller passes at
least `T.length + 1`, which always suffices. -/
def advanceJ (T : List SRecord) (cfg : SCfg) (sv : Option ℚ)
    (matched : List ℕ) : ℕ → ℕ → ℕ
  | 0, j => j
  | fuel + 1, j =>
      match T[j]? with
      | none => j
      | some tr =>
          if j ∈ matched then j
          else if compareSortValues sv tr.sortValue cfg.tolerance cfg.toleranceUnit > 0 then
            advanceJ T cfg sv matched fuel (j + 1)
          else j

/-- Window scan of `twoPointerReconciliation`
(src/unnamed/part_004, lines 246-271): walk the targets from `k`, skipping
matched indices, stopping at the first target strictly above the source,
and keeping the index of the strictly best confidence among the targets
that compare equal.  `bestConf` starts at `-1`. -/
def scanBest (T : List SRecord) (mappings : List CMapping) (cfg : SCfg)
    (s : SRecord) (matched : List ℕ) : ℕ → ℕ → ℚ → Option ℕ → ℚ × Option ℕ
  | 0, _, bestConf, bestIdx => (bestConf, bestIdx)
  | fuel + 1, k, bestConf, bestIdx =>
      match T[k]? with
      | none => (bestConf, bestIdx)
      | some tr =>
          if k ∈ matched then scanBest T mappings cfg s matched fuel (k + 1) bestConf bestIdx
          else
            let comp := compareSortValues s.sortValue tr.sortValue cfg.tolerance cfg.toleranceUnit
            if comp < 0 then (bestConf, bestIdx)
            else if comp = 0 then
              let c := calculateMatchConfidence s.transformedRow tr.transformedRow mappings cfg
              if c > bestConf then scanBest T mappings cfg s matched fuel (k + 1) c (some k)
              else scanBest T mappings cfg s matched fuel (k + 1) bestConf bestIdx
            else scanBest T mappings cfg s matched fuel (k + 1) bestConf bestIdx

/-- Source sweep of `twoPointerReconciliation`
(src/unnamed/part_006 counterpart: src/unnamed/part_004, lines 228-287):
for each source record advance the window start, scan the window for the
best equal-compare target, and either claim it (when the best confidence
exceeds `0.3`) or emit an unmatched-source verdict.  Returns the emitted
verdicts and the final claimed-index list. -/
def twoPointerLoop (T : List SRecord) (mappings : List CMapping) (cfg : SCfg) :
    List SRecord → ℕ → List ℕ → List IVerdict × List ℕ
  | [], _, matched => ([], matched)
  | s :: rest, j, matched =>
      let j1 := advanceJ T cfg s.sortValue matched (T.length + 1) j
      let best := scanBest T mappings cfg s matched (T.length + 1) j1 (-1) none
      match best.2 with
      | some k =>
          if best.1 > 3 / 10 then
            match T[k]? with
            | some tr =>
                let res := twoPointerLoop T mappings cfg rest j1 (k :: matched)
                (⟨createMatchFromRecords s tr mappings cfg, some k⟩ :: res.1, res.2)
            | none =>
                let res := twoPointerLoop T mappings cfg rest j1 matched
                (⟨createUnmatchedSourceResult s, none⟩ :: res.1, res.2)
          else
            let res := twoPointerLoop T mappings cfg rest j1 matched
            (⟨createUnmatchedSourceResult s, none⟩ :: res.1, res.2)
      | none =>
          let res := twoPointerLoop T mappings cfg rest j1 matched
          (⟨createUnmatchedSourceResult s, none⟩ :: res.1, res.2)

/-- Embedding of `StreamingReconciliationEngine.twoPointerReconciliation`
(src/unnamed/part_004, lines 208-296), instrumented with target indices:
the source sweep followed by one unmatched-target verdict for every
unclaimed target index, in index order. -/
def twoPointerReconciliationI (S T : List SRecord)
    (mappings : List CMapping) (cfg : SCfg) : List IVerdict :=
  let run := twoPointerLoop T mappings cfg S 0 []
  run.1 ++ (List.range T.length).filterMap
    (fun k =>
      if k ∈ run.2 then none
      else
        match T[k]? with
        | some tr => some (⟨createUnmatchedTargetResult tr, some k⟩ : IVerdict)
        | none => none)

/-- Verdict list of `twoPointerReconciliation` (the instrumentation
projected away). -/
def twoPointerReconciliation (S T : List SRecord)
    (mappings : List CMapping) (cfg : SCfg) : List Engine6.Verdict :=
  (twoPointerReconciliationI S T mappings cfg).map IVerdict.v

/-- Processing mode chosen by `reconcileStreaming`. -/
inductive StreamMode where
  | trueStreaming | inMemoryTwoPointer
deriving DecidableEq, Repr

/-- Threshold `STREAM_THRESHOLD` of the streaming engine
(src/unnamed/part_004, line 33). -/
def STREAM_THRESHOLD : ℕ := 50000

/-- Embedding of the mode selection of
`StreamingReconciliationEngine.reconcileStreaming`
(src/unnamed/part_004, lines 39-63): the strict two-pointer walk
(`reconcileWithTrueStreaming`) runs exactly when the estimated total row
count exceeds `STREAM_THRESHOLD`; otherwise the in-memory sliding-window
variant runs.  The configuration — in particular `matchStrategy` — is not
consulted. -/
def chooseMode (estimatedSourceRows estimatedTargetRows : ℕ) (_cfg : SCfg) : StreamMode :=
  if estimatedSourceRows + estimatedTargetRows > STREAM_THRESHOLD then .trueStreaming
  else .inMemoryTwoPointer

/-- Embedding of the stream walk of
`StreamingReconciliationEngine.reconcileWithTrueStreaming`
(src/unnamed/part_004, lines 337-406) over materialised record lists: on
equal compare claim and advance both sides, on below emit unmatched-source
and advance the source, on above emit unmatched-target and advance the
target; then drain the remaining sources, then the remaining targets. -/
def trueStreamingWalk (mappings : List CMapping) (cfg : SCfg) :
    List SRecord → List SRecord → List Engine6.Verdict
  | [], ts => ts.map createUnmatchedTargetResult
  | s :: ss, [] => createUnmatchedSourceResult s :: trueStreamingWalk mappings cfg ss []
  | s :: ss, t :: ts =>
      let comparison := compareSortValues s.sortValue t.sortValue cfg.tolerance cfg.toleranceUnit
      if comparison = 0 then
        createMatchFromRecords s t mappings cfg :: trueStreamingWalk mappings cfg ss ts
      else if comparison < 0 then
        createUnmatchedSourceResult s :: trueStreamingWalk mappings cfg ss (t :: ts)
      else
        createUnmatchedTargetResult t :: trueStreamingWalk mappings cfg (s :: ss) ts
termination_by ss ts => ss.length + ts.length

end Engine4

namespace Engine6

/-- Candidate list of `findMatches` before sorting: every target whose
confidence against the source exceeds `0.3`, paired with that
confidence. -/
def findMatchesCandidates (sourceItem : TData) (targetItems : List TData)
    (mappings : List CMapping) (cfg : RecCfg) : List (TData × ℚ) :=
  targetItems.filterMap
    (fun targetItem =>
      let confidence :=
        calculateMatchConfidence sourceItem.transformedRow targetItem.transformedRow mappings cfg
      if confidence > 3 / 10 then some (targetItem, confidence) else none)

/-- Stable descending sort by confidence (model of the JS comparator
`(a, b) => b.confidence - a.confidence`). -/
def sortByConfidenceDesc (l : List (TData × ℚ)) : List (TData × ℚ) :=
  List.insertionSort (fun a b => b.2 ≤ a.2) l

/-- Survivor selection of `findMatches`, written from the words of the
specification: `exact` keeps the candidates above `0.8`, `fuzzy` keeps the
top three, `smart` keeps those above `0.8` when any exists and otherwise
the single best. -/
def strategySurvivors (strategy : MatchStrategy) (sorted : List (TData × ℚ)) :
    List (TData × ℚ) :=
  match strategy with
  | .exact => sorted.filter (fun m => m.2 > 8 / 10)
  | .fuzzy => sorted.take 3
  | .smart =>
      let exactMatches := sorted.filter (fun m => m.2 > 8 / 10)
      if exactMatches.isEmpty then sorted.take 1 else exactMatches

end Engine6

namespace Engine4

/-- Record list built from a row list the way `extractAndSortData` builds
its records (position, projected sort value, row); the subsequent sort of
that function is the identity on the key-sorted inputs hypothesised by the
theorems below. -/
def buildRecords (rows : List RRow) (sortKey : String) : List SRecord :=
  rows.enum.map (fun p => ⟨p.1, extractSortValue p.2 sortKey, p.2⟩)

end Engine4

/-- Claim-relevant core of a verdict: status and the two carried rows. -/
def verdictCore (v : Engine6.Verdict) : Engine6.RStatus × Option RRow × Option RRow :=
  (v.status, v.sourceRow, v.targetRow)

/-- Pipeline step record for the concrete transformation instantiations:
an id, the `order` key, and the modelled step kind. -/
structure MStep where
  id : String
  order : ℤ
  kind : MStepKind
deriving DecidableEq, Repr

/-- Step evaluator tying the generic pipeline engine to the concrete
`applyTransformation` embedding. -/
def applyStepM (clock : EngineClock) (v : JValue) (s : MStep) : Except String JValue :=
  applyTransformationM clock v s.kind

/-- Fixed clock reading used by the concrete examples. -/
def clock0 : EngineClock := ⟨"2024-01-15", "2024-01-15T10:30:00.000Z", 1705314600000⟩

/-- Example source row (id 1, amount column `k` holding 10). -/
def exRowS : RRow := [("id", 1), ("k", 10)]

/-- Example target row matching `exRowS` on column `k`. -/
def exRowT : RRow := [("id", 2), ("k", 10)]

/-- Second example target row, also matching `exRowS` on column `k`. -/
def exRowT2 : RRow := [("id", 3), ("k", 10)]

/-- Example mapping: source column `k` against target column `k`. -/
def exMaps : List CMapping := [⟨some "k", some "k"⟩]

/-- Example in-memory configuration: zero tolerance, exact strategy. -/
def exCfg6 : RecCfg := ⟨0, .exact⟩

/-- Example streaming configuration: zero tolerance, exact unit, exact
strategy. -/
def exCfg4 : Engine4.SCfg := ⟨0, .exact, .exact⟩

/-- Streaming records of the one-row example source dataset. -/
def exRecS : List Engine4.SRecord := [⟨0, some 10, exRowS⟩]

/-- Streaming records of the two-row example target dataset. -/
def exRecT : List Engine4.SRecord := [⟨0, some 10, exRowT⟩, ⟨1, some 10, exRowT2⟩]

/-! Theorems settling the claims. -/

/-- Claim C10, counterexample: the claim asserts half-away-from-zero
rounding, so that `-2.5` at zero decimal places rounds to `-3`; the code
uses JS `Math.round`, which rounds the tie to `-2`. -/
theorem claim_C10_counterexample :
    roundNumberQ (-(5 / 2)) 0 .round = -2 ∧ roundNumberQ (-(5 / 2)) 0 .round ≠ -3 := by
  constructor <;> norm_num [roundNumberQ, jsMathRound]

/-- Claim C10, amended: with roundingMode `round`, `round_number` rounds
half-up (ties toward positive infinity): the result is `n / 10 ^ d` for
the unique integer `n` with `n ≤ x · 10 ^ d + 1/2 < n + 1`. -/
theorem claim_C10_amended (x : ℚ) (d : ℕ) :
    ∃ n : ℤ, roundNumberQ x d .round = (n : ℚ) / (10 : ℚ) ^ d ∧
      (n : ℚ) ≤ x * (10 : ℚ) ^ d + 1 / 2 ∧ x * (10 : ℚ) ^ d + 1 / 2 < (n : ℚ) + 1 :=
  ⟨⌊x * (10 : ℚ) ^ d + 1 / 2⌋, rfl, Int.floor_le _, Int.lt_floor_add_one _⟩

/-- Lower bound of `jsFindIndex`: it never returns less than `-1`. -/
theorem jsFindIndex_ge_neg_one (p : α → Bool) (l : List α) : -1 ≤ jsFindIndex p l := by
  induction l with
  | nil => simp [jsFindIndex]
  | cons x xs ih =>
      simp only [jsFindIndex]
      split
      · norm_num
      · split
        · norm_num
        · omega

/-- When no element satisfies `p`, `jsFindIndex` returns `-1`. -/
theorem jsFindIndex_eq_neg_one (p : α → Bool) (l : List α)
    (h : l.any p = false) : jsFindIndex p l = -1 := by
  induction l with
  | nil => simp [jsFindIndex]
  | cons x xs ih =>
      simp only [List.any_cons, Bool.or_eq_false_iff] at h
      simp only [jsFindIndex, h.1, if_false]
      rw [ih h.2]
      simp

/-- Claim C9: the claim asserts that pipeline validation reports an error
iff `convert_timezone` occurs before `cast_to_date`; the source guards the
check with `hasTimezoneConversion && !hasDateCast`, under which the
`cast_to_date` index is necessarily `-1`, so the comparison
`dateStepIndex > timezoneStepIndex` never holds and the ordering error is
unreachable: validation reports no ordering error for any pipeline, in
particular not for `[convert_timezone, cast_to_date]`. -/
theorem claim_C9_theorem :
    (∀ types : List TransformationType, crossStepOrderErrors types = []) ∧
    crossStepOrderErrors [.convert_timezone, .cast_to_date] = [] := by
  have main : ∀ types : List TransformationType, crossStepOrderErrors types = [] := by
    intro types
    unfold crossStepOrderErrors
    split
    · rename_i hguard
      simp only [Bool.and_eq_true, Bool.not_eq_true'] at hguard
      have hdate : jsFindIndex (fun t => t = TransformationType.cast_to_date) types = -1 :=
        jsFindIndex_eq_neg_one _ _ (by simpa using hguard.2)
      have htz := jsFindIndex_ge_neg_one (fun t => t = TransformationType.convert_timezone) types
      rw [if_neg]
      omega
    · rfl
  exact ⟨main, main _⟩

/-- Claim C3, counterexample: with `matchStrategy = exact` and small
estimated row counts, `reconcileStreaming` picks the in-memory
sliding-window variant, not the strict two-pointer walk the claim
requires; mode selection ignores the strategy entirely. -/
theorem claim_C3_counterexample :
    Engine4.chooseMode 10 10 exCfg4 = .inMemoryTwoPointer ∧
    Engine4.StreamMode.inMemoryTwoPointer ≠ .trueStreaming := by
  constructor
  · rfl
  · decide

/-- Claim C3, amended: the strict two-pointer walk
(`reconcileWithTrueStreaming`) is chosen exactly when the estimated total
row count exceeds `STREAM_THRESHOLD` (50 000); otherwise the
sliding-window variant runs; `matchStrategy` plays no role in the
selection. -/
theorem claim_C3_amended (nS nT : ℕ) (cfg : Engine4.SCfg) :
    Engine4.chooseMode nS nT cfg = .trueStreaming ↔ nS + nT > Engine4.STREAM_THRESHOLD := by
  unfold Engine4.chooseMode
  split
  · rename_i h; simpa using h
  · rename_i h
    constructor
    · intro hc; exact absurd hc (by simp)
    · intro hgt; exact absurd hgt h

/-- Witness for the amended claim C3 at a concrete large row count. -/
theorem claim_C3_witness :
    Engine4.chooseMode 60000 1 exCfg4 = .trueStreaming :=
  (claim_C3_amended 60000 1 exCfg4).mpr (by norm_num [Engine4.STREAM_THRESHOLD])

/-- Claim C6: the claim says `fill_null` replaces every null input by the
literal `fillValue`; but `applyTransformation` returns null inputs
unchanged before dispatching any step, so the `fill_null` step maps null
to null even though the inner `fillNull` helper — unreachable for null —
would return the fill value.  Non-null missing values (for example the
empty string under `treatEmptyAsNull`) are filled as the claim states. -/
theorem claim_C6_theorem :
    applyTransformationM clock0 .null (.fill_null ⟨.str "X", true, false⟩) = .ok .null ∧
    fillNull clock0 .null ⟨.str "X", true, false⟩ = .str "X" ∧
    JValue.null ≠ .str "X" ∧
    applyTransformationM clock0 (.str "") (.fill_null ⟨.str "X", true, false⟩) = .ok (.str "X") := by
  refine ⟨rfl, rfl, ?_, rfl⟩
  intro h; exact JValue.noConfusion h

/-- Claim C7: the claim says conditions outside the safe grammar are
rejected and raw host-language code is never executed; the source only
renames identifiers in the condition string and hands the result to the JS
`Function` constructor.  The raw host expression `alert(1)` — which is not
a sentence of the safe grammar, as it mentions the identifier `alert` —
reaches host evaluation verbatim, and no condition string is ever
rejected. -/
theorem claim_C7_theorem :
    applyConditionalFate "alert(1)" = .hostEval "alert(1)" ∧
    specConditionIdentifiersOK "alert(1)" = false ∧
    (∀ c e, applyConditionalFate c ≠ .rejected e) := by
  refine ⟨by decide, by decide, ?_⟩
  intro c e h
  exact ConditionFate.noConfusion h

/-- Claim C8, counterexample: the claim says the currency symbols
`€ £ ¥ ₹` are stripped before parsing, which would make `€5` parse to `5`;
neither parser strips them (`ExpressionEvaluator` removes only
`, $ whitespace %`, `DataTransformer` only `, $ whitespace`), so `€5`
fails `parseFloat` and both return `0`. -/
theorem claim_C8_counterexample :
    parseNumberEE (.str "€5") = 0 ∧ parseNumberDT (.str "€5") = 0 ∧ (0 : ℚ) ≠ 5 := by
  refine ⟨by decide, by decide, by norm_num⟩

/-- Claim C8, amended: both parsers return `0` for null and the empty
string and pass numbers through; `ExpressionEvaluator.parseNumber` maps
booleans to `1`/`0`, special-cases `N/A`, and parses strings after
stripping only comma, dollar, percent and whitespace, while
`DataTransformer.parseNumber` maps booleans to `0` and strips only comma,
dollar and whitespace; the symbols `€ £ ¥ ₹` are stripped by neither, so
strings led by them parse to `0`. -/
theorem claim_C8_amended :
    parseNumberEE .null = 0 ∧ parseNumberEE (.str "") = 0 ∧
    (∀ q, parseNumberEE (.num q) = q) ∧
    (∀ b, parseNumberEE (.bool b) = if b then 1 else 0) ∧
    (∀ s, jsToUpper s ≠ "N/A" →
      parseNumberEE (.str s) = (jsParseFloat (removeCharsBy eeStripChar s)).getD 0) ∧
    (∀ s, jsToUpper s = "N/A" → parseNumberEE (.str s) = 0) ∧
    parseNumberDT .null = 0 ∧
    (∀ q, parseNumberDT (.num q) = q) ∧
    (∀ b, parseNumberDT (.bool b) = 0) ∧
    (∀ s, parseNumberDT (.str s) = (jsParseFloat (removeCharsBy dtStripChar s)).getD 0) ∧
    eeStripChar '€' = false ∧ eeStripChar '£' = false ∧ eeStripChar '¥' = false ∧
    eeStripChar '₹' = false ∧ dtStripChar '%' = false := by
  refine ⟨rfl, rfl, fun q => rfl, fun b => rfl, ?_, ?_, rfl, fun q => rfl, fun b => rfl,
    fun s => rfl, by decide, by decide, by decide, by decide, by decide⟩
  · intro s hna
    by_cases hs : s = ""
    · subst hs; rfl
    · simp only [parseNumberEE, hs, if_false, hna]
      by_cases hc : removeCharsBy eeStripChar s = ""
      · rw [if_pos hc, hc]; rfl
      · rw [if_neg hc]
  · intro s hna
    by_cases hs : s = ""
    · subst hs; rfl
    · simp only [parseNumberEE, hs, if_false, hna, if_true]

/-- Witness for the amended claim C8: the percent sign is stripped by the
expression-evaluator parser, so `5%5` parses as `55` there, while the
data-transformer parser keeps it and stops at it, yielding `5`. -/
theorem claim_C8_witness :
    parseNumberEE (.str "5%5") = (jsParseFloat (removeCharsBy eeStripChar "5%5")).getD 0 ∧
    parseNumberDT (.str "5%5") = (jsParseFloat (removeCharsBy dtStripChar "5%5")).getD 0 :=
  ⟨claim_C8_amended.2.2.2.2.1 "5%5" (by decide),
   claim_C8_amended.2.2.2.2.2.2.2.2.2.1 "5%5"⟩

/-- Step results of the pipeline fold are the step records of the
specification-side input chain. -/
theorem runSteps_fst {V S : Type} (applyT : V → S → Except String V)
    (stepId : S → String) :
    ∀ (L : List S) (v : V),
      (runSteps applyT stepId v L).1 =
        List.zipWith (executeStep applyT stepId) (stepInputs applyT stepId v L) L := by
  intro L
  induction L with
  | nil => intro v; rfl
  | cons s rest ih =>
      intro v
      simp only [runSteps, stepInputs, List.zipWith]
      rw [ih]

/-- Final value of the pipeline fold is the specification-side chain
value. -/
theorem runSteps_value {V S : Type} (applyT : V → S → Except String V)
    (stepId : S → String) :
    ∀ (L : List S) (v : V),
      (runSteps applyT stepId v L).2.1 = chainValue applyT stepId v L := by
  intro L
  induction L with
  | nil => intro v; rfl
  | cons s rest ih =>
      intro v
      simp only [runSteps, chainValue]
      rw [ih]

/-- Success flag of the pipeline fold is the conjunction of the step
successes. -/
theorem runSteps_success {V S : Type} (applyT : V → S → Except String V)
    (stepId : S → String) :
    ∀ (L : List S) (v : V),
      ((runSteps applyT stepId v L).2.2 = true ↔
        ∀ r ∈ (runSteps applyT stepId v L).1, r.success = true) := by
  intro L
  induction L with
  | nil => intro v; simp [runSteps]
  | cons s rest ih =>
      intro v
      simp only [runSteps, List.mem_cons, Bool.and_eq_true]
      constructor
      · rintro ⟨h1, h2⟩ r hr
        rcases hr with rfl | hr
        · exact h1
        · exact (ih _).mp h2 r hr
      · intro h
        exact ⟨h _ (Or.inl rfl), (ih _).mpr (fun r hr => h r (Or.inr hr))⟩

/-- Claim C5: `executePipeline` runs the steps in a stable ascending sort
by their `order` key; its step results are exactly the step records along
the specification-side input chain, in which a failing step propagates its
own unchanged input to the next step and records its failure; the final
value is the chain value; and the pipeline succeeds iff every step
succeeded. -/
theorem claim_C5_theorem {V S : Type} (applyT : V → S → Except String V)
    (stepId : S → String) (stepOrder : S → ℤ) (v : V) (steps : List S) :
    (sortSteps stepOrder steps).Perm steps ∧
    List.Sorted (fun a b => stepOrder a ≤ stepOrder b) (sortSteps stepOrder steps) ∧
    (executePipeline applyT stepId stepOrder v steps).stepResults =
      List.zipWith (executeStep applyT stepId)
        (stepInputs applyT stepId v (sortSteps stepOrder steps)) (sortSteps stepOrder steps) ∧
    (executePipeline applyT stepId stepOrder v steps).transformedValue =
      chainValue applyT stepId v (sortSteps stepOrder steps) ∧
    ((executePipeline applyT stepId stepOrder v steps).success = true ↔
      ∀ r ∈ (executePipeline applyT stepId stepOrder v steps).stepResults, r.success = true) ∧
    (∀ w s e, applyT w s = .error e →
      executeStep applyT stepId w s = ⟨stepId s, false, w, some e⟩) ∧
    (∀ w s rest, (executeStep applyT stepId w s).success = false →
      stepInputs applyT stepId w (s :: rest) = w :: stepInputs applyT stepId w rest) := by
  haveI : IsTotal S (fun a b => stepOrder a ≤ stepOrder b) := ⟨fun a b => le_total _ _⟩
  haveI : IsTrans S (fun a b => stepOrder a ≤ stepOrder b) :=
    ⟨fun a b c hab hbc => le_trans hab hbc⟩
  refine ⟨List.perm_insertionSort _ _, List.sorted_insertionSort _ _,
    runSteps_fst applyT stepId _ v, runSteps_value applyT stepId _ v,
    runSteps_success applyT stepId _ v, ?_, ?_⟩
  · intro w s e h
    unfold executeStep
    rw [h]
  · intro w s rest h
    simp only [stepInputs, h, if_false]
    simp

/-- Witness for claim C5: a concrete two-step pipeline over `JValue`,
declared out of order with a failing first step (absolute value of a
non-numeric string); the failing step hands its unchanged input to the
next step. -/
theorem claim_C5_witness :
    stepInputs (applyStepM clock0) MStep.id (JValue.str "x")
      [⟨"b", 1, .absolute_value⟩, ⟨"a", 2, .scale_number 2⟩] =
      JValue.str "x" ::
        stepInputs (applyStepM clock0) MStep.id (JValue.str "x") [⟨"a", 2, .scale_number 2⟩] :=
  (claim_C5_theorem (applyStepM clock0) MStep.id MStep.order (JValue.str "x")
      []).2.2.2.2.2.2 (JValue.str "x") ⟨"b", 1, .absolute_value⟩
      [⟨"a", 2, .scale_number 2⟩] (by decide)

/-- Claim C2: in the in-memory engine a target is admitted as a candidate
iff its confidence against the source exceeds `0.3`; the candidate list is
sorted by confidence descending; and the survivors are, per strategy,
exactly those of the specification (`exact`: above `0.8`; `fuzzy`: top
three; `smart`: all above `0.8` when any exists, else the single best). -/
theorem claim_C2_theorem (s : Engine6.TData) (ts : List Engine6.TData)
    (maps : List CMapping) (cfg : RecCfg) :
    (Engine6.sortByConfidenceDesc (Engine6.findMatchesCandidates s ts maps cfg)).Perm
      (Engine6.findMatchesCandidates s ts maps cfg) ∧
    List.Sorted (fun a b : Engine6.TData × ℚ => b.2 ≤ a.2)
      (Engine6.sortByConfidenceDesc (Engine6.findMatchesCandidates s ts maps cfg)) ∧
    (∀ t c, (t, c) ∈ Engine6.findMatchesCandidates s ts maps cfg ↔
      (t ∈ ts ∧
        c = Engine6.calculateMatchConfidence s.transformedRow t.transformedRow maps cfg ∧
        c > 3 / 10)) ∧
    Engine6.findMatches s ts maps cfg =
      Engine6.strategySurvivors cfg.matchStrategy
        (Engine6.sortByConfidenceDesc (Engine6.findMatchesCandidates s ts maps cfg)) := by
  haveI : IsTotal (Engine6.TData × ℚ) (fun a b => b.2 ≤ a.2) := ⟨fun a b => le_total _ _⟩
  haveI : IsTrans (Engine6.TData × ℚ) (fun a b => b.2 ≤ a.2) :=
    ⟨fun a b c hab hbc => le_trans hbc hab⟩
  refine ⟨List.perm_insertionSort _ _, List.sorted_insertionSort _ _, ?_, rfl⟩
  intro t c
  constructor
  · intro hmem
    rcases List.mem_filterMap.mp hmem with ⟨t', ht', hf⟩
    by_cases h :
        Engine6.calculateMatchConfidence s.transformedRow t'.transformedRow maps cfg > 3 / 10
    · simp only [h, if_pos] at hf
      injection hf with hpair
      injection hpair with h1 h2
      subst h1; subst h2
      exact ⟨ht', rfl, h⟩
    · simp only [h, if_neg, if_false] at hf
      exact absurd hf (by simp [h])
  · rintro ⟨ht, rfl, hc⟩
    exact List.mem_filterMap.mpr ⟨t, ht, by simp [hc]⟩

/-- Witness for claim C2: the survivor equation at a concrete source,
target list, mapping and configuration. -/
theorem claim_C2_witness :
    Engine6.findMatches ⟨exRowS, exRowS⟩ [⟨exRowT, exRowT⟩] exMaps exCfg6 =
      Engine6.strategySurvivors exCfg6.matchStrategy
        (Engine6.sortByConfidenceDesc
          (Engine6.findMatchesCandidates ⟨exRowS, exRowS⟩ [⟨exRowT, exRowT⟩] exMaps exCfg6)) :=
  (claim_C2_theorem ⟨exRowS, exRowS⟩ [⟨exRowT, exRowT⟩] exMaps exCfg6).2.2.2

/-- Confidence of the example source row against the first example target
row in the in-memory engine. -/
theorem ex_conf6_T : Engine6.calculateMatchConfidence exRowS exRowT exMaps exCfg6 = 1 := by
  have hw : Engine6.getFieldWeight "k" = 1 := by decide
  have hvm : Engine6.valuesMatch (rowGet exRowS "k") (rowGet exRowT "k") (0 : ℚ) = true := by
    decide
  unfold Engine6.calculateMatchConfidence
  simp only [exMaps, exCfg6, List.foldl]
  rw [if_neg (by decide : ¬ ("k" = "" ∨ "k" = ""))]
  norm_num [hvm, hw]

/-- Confidence of the example source row against the second example target
row in the in-memory engine. -/
theorem ex_conf6_T2 : Engine6.calculateMatchConfidence exRowS exRowT2 exMaps exCfg6 = 1 := by
  have hw : Engine6.getFieldWeight "k" = 1 := by decide
  have hvm : Engine6.valuesMatch (rowGet exRowS "k") (rowGet exRowT2 "k") (0 : ℚ) = true := by
    decide
  unfold Engine6.calculateMatchConfidence
  simp only [exMaps, exCfg6, List.foldl]
  rw [if_neg (by decide : ¬ ("k" = "" ∨ "k" = ""))]
  norm_num [hvm, hw]

/-- The example pair has no discrepancies in the in-memory engine. -/
theorem ex_disc6_T : Engine6.calculateDiscrepancies exRowS exRowT exMaps exCfg6 = [] := by
  have h10 : rowGet exRowS "k" = some 10 := by decide
  have h10t : rowGet exRowT "k" = some 10 := by decide
  unfold Engine6.calculateDiscrepancies
  simp only [exMaps, exCfg6, List.filterMap, h10, h10t]
  norm_num

/-- The second example pair has no discrepancies in the in-memory
engine. -/
theorem ex_disc6_T2 : Engine6.calculateDiscrepancies exRowS exRowT2 exMaps exCfg6 = [] := by
  have h10 : rowGet exRowS "k" = some 10 := by decide
  have h10t : rowGet exRowT2 "k" = some 10 := by decide
  unfold Engine6.calculateDiscrepancies
  simp only [exMaps, exCfg6, List.filterMap, h10, h10t]
  norm_num

/-- In-memory match selection on the single example target. -/
theorem ex_fm1 : Engine6.findMatches ⟨exRowS, exRowS⟩ [⟨exRowT, exRowT⟩] exMaps exCfg6 =
    [(⟨exRowT, exRowT⟩, 1)] := by
  unfold Engine6.findMatches
  simp only [List.filterMap, ex_conf6_T]
  norm_num [List.insertionSort, Engine6.TData.transformedRow]
  simp [exCfg6]

/-- In-memory match selection on the duplicate example targets: with the
`exact` strategy the single source claims both of them. -/
theorem ex_fm2 : Engine6.findMatches ⟨exRowS, exRowS⟩ [⟨exRowT, exRowT⟩, ⟨exRowT2, exRowT2⟩]
    exMaps exCfg6 = [(⟨exRowT, exRowT⟩, 1), (⟨exRowT2, exRowT2⟩, 1)] := by
  unfold Engine6.findMatches
  simp only [List.filterMap, ex_conf6_T, ex_conf6_T2]
  norm_num [List.insertionSort, List.orderedInsert, Engine6.TData.transformedRow]
  simp [exCfg6]

/-- In-memory run on two identical sources and one target: both sources
claim the same target row. -/
theorem ex_reconcile_dup : Engine6.reconcile [exRowS, exRowS] [exRowT] exMaps exCfg6 =
    [⟨.matched, some exRowS, some exRowT, some 1, []⟩,
     ⟨.matched, some exRowS, some exRowT, some 1, []⟩] := by
  have hid : Engine6.getRowId exRowT = .fromField 2 := by decide
  unfold Engine6.reconcile Engine6.transformIdentity
  simp only [List.map, List.flatMap]
  simp only [ex_fm1]
  simp [ex_disc6_T, hid]

/-- In-memory run on one source and two duplicate targets: the source
claims both targets and no unmatched-target verdict is emitted. -/
theorem ex_reconcile_two : Engine6.reconcile [exRowS] [exRowT, exRowT2] exMaps exCfg6 =
    [⟨.matched, some exRowS, some exRowT, some 1, []⟩,
     ⟨.matched, some exRowS, some exRowT2, some 1, []⟩] := by
  have hid : Engine6.getRowId exRowT = .fromField 2 := by decide
  have hid2 : Engine6.getRowId exRowT2 = .fromField 3 := by decide
  unfold Engine6.reconcile Engine6.transformIdentity
  simp only [List.map, List.flatMap]
  simp only [ex_fm2]
  simp [ex_disc6_T, ex_disc6_T2, hid, hid2]

/-- Claim C1, counterexample: in the in-memory engine two identical source
rows both claim the one target row, so that target row appears in two
matched verdicts — more than the single matched/discrepancy verdict the
claim allows. -/
theorem claim_C1_counterexample :
    ((Engine6.reconcile [exRowS, exRowS] [exRowT] exMaps exCfg6).countP
      (fun v => decide (v.targetRow = some exRowT ∧
        (v.status = .matched ∨ v.status = .discrepancy)))) = 2 ∧ ¬ (2 ≤ 1) := by
  rw [ex_reconcile_dup]
  exact ⟨by decide, by norm_num⟩

/-- Any index produced by the window scan is either the incoming best
index or a fresh valid target index outside the matched set. -/
theorem scanBest_some (T : List Engine4.SRecord) (maps : List CMapping) (cfg : Engine4.SCfg)
    (s : Engine4.SRecord) (matched : List ℕ) :
    ∀ (fuel k : ℕ) (bc : ℚ) (bi : Option ℕ) (k2 : ℕ),
      (Engine4.scanBest T maps cfg s matched fuel k bc bi).2 = some k2 →
      bi = some k2 ∨ (k2 ∉ matched ∧ k2 < T.length) := by
  intro fuel
  induction fuel with
  | zero => intro k bc bi k2 h; exact Or.inl h
  | succ fuel ih =>
      intro k bc bi k2 h
      simp only [Engine4.scanBest] at h
      cases hT : T[k]? with
      | none => rw [hT] at h; exact Or.inl h
      | some tr =>
          rw [hT] at h
          dsimp only at h
          by_cases hm : k ∈ matched
          · rw [if_pos hm] at h
            exact ih _ _ _ _ h
          · rw [if_neg hm] at h
            set comp := Engine4.compareSortValues s.sortValue tr.sortValue cfg.tolerance
              cfg.toleranceUnit with hc
            by_cases h1 : comp < 0
            · rw [if_pos h1] at h; exact Or.inl h
            · rw [if_neg h1] at h
              by_cases h2 : comp = 0
              · rw [if_pos h2] at h
                by_cases h3 : Engine4.calculateMatchConfidence s.transformedRow
                    tr.transformedRow maps cfg > bc
                · rw [if_pos h3] at h
                  rcases ih _ _ _ _ h with heq | hok
                  · injection heq with heq
                    subst heq
                    exact Or.inr ⟨hm, (List.getElem?_eq_some.mp hT).1⟩
                  · exact Or.inr hok
                · rw [if_neg h3] at h
                  exact ih _ _ _ _ h
              · rw [if_neg h2] at h
                exact ih _ _ _ _ h

/-- Invariants of the source sweep: the final matched set extends the
incoming one by exactly the indices claimed in the emitted verdicts, every
newly claimed index is fresh and valid, the claimed indices are pairwise
distinct, and each source emits exactly one verdict. -/
theorem twoPointerLoop_spec (T : List Engine4.SRecord) (maps : List CMapping)
    (cfg : Engine4.SCfg) :
    ∀ (srcs : List Engine4.SRecord) (j : ℕ) (matched : List ℕ),
      (Engine4.twoPointerLoop T maps cfg srcs j matched).2 =
        ((Engine4.twoPointerLoop T maps cfg srcs j matched).1.filterMap
          Engine4.IVerdict.tIdx).reverse ++ matched ∧
      (∀ k ∈ (Engine4.twoPointerLoop T maps cfg srcs j matched).1.filterMap
          Engine4.IVerdict.tIdx, k ∉ matched ∧ k < T.length) ∧
      ((Engine4.twoPointerLoop T maps cfg srcs j matched).1.filterMap
        Engine4.IVerdict.tIdx).Nodup ∧
      (Engine4.twoPointerLoop T maps cfg srcs j matched).1.length = srcs.length := by
  intro srcs
  induction srcs with
  | nil =>
      intro j matched
      exact ⟨rfl, by simp [Engine4.twoPointerLoop], by simp [Engine4.twoPointerLoop], rfl⟩
  | cons s rest ih =>
      intro j matched
      simp only [Engine4.twoPointerLoop]
      cases hbi : (Engine4.scanBest T maps cfg s matched (T.length + 1)
          (Engine4.advanceJ T cfg s.sortValue matched (T.length + 1) j) (-1) none).2 with
      | none =>
          dsimp only
          obtain ⟨ihA, ihB, ihC, ihD⟩ := ih (Engine4.advanceJ T cfg s.sortValue matched
            (T.length + 1) j) matched
          refine ⟨?_, ?_, ?_, ?_⟩
          · simpa using ihA
          · simpa using ihB
          · simpa using ihC
          · simpa using ihD
      | some k =>
          dsimp only
          by_cases hbc : (Engine4.scanBest T maps cfg s matched (T.length + 1)
              (Engine4.advanceJ T cfg s.sortValue matched (T.length + 1) j) (-1) none).1 > 3 / 10
          · rw [if_pos hbc]
            have hkok : k ∉ matched ∧ k < T.length := by
              rcases scanBest_some T maps cfg s matched _ _ _ _ _ hbi with h | h
              · exact absurd h (by simp)
              · exact h
            cases hT : T[k]? with
            | none =>
                exact absurd ((List.getElem?_eq_none_iff).mp hT) (by omega)
            | some tr =>
                dsimp only
                obtain ⟨ihA, ihB, ihC, ihD⟩ := ih (Engine4.advanceJ T cfg s.sortValue matched
                  (T.length + 1) j) (k :: matched)
                refine ⟨?_, ?_, ?_, ?_⟩
                · simp only [List.filterMap_cons]
                  rw [List.reverse_cons]
                  rw [ihA]
                  simp [List.append_assoc]
                · intro c hc
                  simp only [List.filterMap_cons] at hc
                  rcases List.mem_cons.mp hc with rfl | hc
                  · exact hkok
                  · have := ihB c hc
                    exact ⟨fun hcm => this.1 (List.mem_cons_of_mem _ hcm), this.2⟩
                · simp only [List.filterMap_cons]
                  refine List.Nodup.cons ?_ ihC
                  intro hkmem
                  exact (ihB k hkmem).1 (List.mem_cons_self _ _)
                · simp only [List.length_cons]
                  rw [ihD]
          · rw [if_neg hbc]
            obtain ⟨ihA, ihB, ihC, ihD⟩ := ih (Engine4.advanceJ T cfg s.sortValue matched
              (T.length + 1) j) matched
            refine ⟨?_, ?_, ?_, ?_⟩
            · simpa using ihA
            · simpa using ihB
            · simpa using ihC
            · simpa using ihD

/-- Claim C1, amended: the streaming two-pointer engine satisfies the
claim — every target index appears in at most one verdict of the batch (in
particular at most one matched/discrepancy verdict), every index carried
by a verdict is valid, every target index appears in some verdict (an
unclaimed target, in particular every unclaimed duplicate, is emitted as
unmatched-target), and each source emits exactly one verdict (so claims at
most one target, duplicate or not).  The in-memory engine violates the
claim: see the counterexample. -/
theorem claim_C1_amended (S T : List Engine4.SRecord) (maps : List CMapping)
    (cfg : Engine4.SCfg) :
    ((Engine4.twoPointerReconciliationI S T maps cfg).filterMap
      Engine4.IVerdict.tIdx).Nodup ∧
    (∀ iv ∈ Engine4.twoPointerReconciliationI S T maps cfg,
      ∀ k, iv.tIdx = some k → k < T.length) ∧
    (∀ k, k < T.length →
      ∃ iv ∈ Engine4.twoPointerReconciliationI S T maps cfg, iv.tIdx = some k) ∧
    (Engine4.twoPointerLoop T maps cfg S 0 []).1.length = S.length := by
  obtain ⟨hA, hB, hC, hD⟩ := twoPointerLoop_spec T maps cfg S 0 []
  simp only [List.append_nil] at hA
  unfold Engine4.twoPointerReconciliationI
  set res := Engine4.twoPointerLoop T maps cfg S 0 [] with hres
  set claims := res.1.filterMap Engine4.IVerdict.tIdx with hclaims
  have hmemMatched : ∀ c, c ∈ res.2 ↔ c ∈ claims := by
    intro c; rw [hA]; exact List.mem_reverse
  refine ⟨?_, ?_, ?_, hD⟩
  · rw [List.filterMap_append]
    refine List.Nodup.append hC ?_ ?_
    · rw [List.filterMap_filterMap]
      refine List.Nodup.filterMap ?_ (List.nodup_range _)
      intro a a' b hb hb'
      have ha : b = a := by
        simp only [Option.mem_def] at hb
        split at hb
        · exact absurd hb (by simp)
        · rcases hT : T[a]? with _ | tr <;> rw [hT] at hb
          · exact absurd hb (by simp)
          · simp only [Option.bind] at hb
            injection hb with hb
            rw [← hb]
      have ha' : b = a' := by
        simp only [Option.mem_def] at hb'
        split at hb'
        · exact absurd hb' (by simp)
        · rcases hT : T[a']? with _ | tr <;> rw [hT] at hb'
          · exact absurd hb' (by simp)
          · simp only [Option.bind] at hb'
            injection hb' with hb'
            rw [← hb']
      rw [← ha, ha']
    · intro c hc1 hc2
      rw [List.filterMap_filterMap] at hc2
      rcases List.mem_filterMap.mp hc2 with ⟨a, _, hfa⟩
      have hcm : c ∈ res.2 := (hmemMatched c).mpr hc1
      split at hfa
      · exact absurd hfa (by simp)
      · rename_i hnot
        rcases hT : T[a]? with _ | tr <;> rw [hT] at hfa
        · exact absurd hfa (by simp)
        · simp only [Option.bind] at hfa
          injection hfa with hfa
          rw [hfa] at hnot
          exact hnot hcm
  · intro iv hiv k hk
    rcases List.mem_append.mp hiv with hmem | hmem
    · exact (hB k (List.mem_filterMap.mpr ⟨iv, hmem, hk⟩)).2
    · rcases List.mem_filterMap.mp hmem with ⟨a, har, hfa⟩
      split at hfa
      · exact absurd hfa (by simp)
      · rcases hT : T[a]? with _ | tr <;> rw [hT] at hfa
        · exact absurd hfa (by simp)
        · injection hfa with hfa
          rw [← hfa] at hk
          simp only at hk
          injection hk with hk
          rw [← hk]
          exact List.mem_range.mp har
  · intro k hkT
    by_cases hkm : k ∈ res.2
    · rcases List.mem_filterMap.mp ((hmemMatched k).mp hkm) with ⟨iv, hmem, hidx⟩
      exact ⟨iv, List.mem_append.mpr (Or.inl hmem), hidx⟩
    · refine ⟨⟨Engine4.createUnmatchedTargetResult (T.get ⟨k, hkT⟩), some k⟩,
        List.mem_append.mpr (Or.inr ?_), rfl⟩
      refine List.mem_filterMap.mpr ⟨k, List.mem_range.mpr hkT, ?_⟩
      rw [if_neg hkm, List.getElem?_eq_getElem hkT]
      rfl

/-- Witness for the amended claim C1 at the concrete example batch. -/
theorem claim_C1_witness :
    ((Engine4.twoPointerReconciliationI exRecS exRecT exMaps exCfg4).filterMap
      Engine4.IVerdict.tIdx).Nodup :=
  (claim_C1_amended exRecS exRecT exMaps exCfg4).1

/-- Confidence of the example pair in the streaming engine. -/
theorem ex_conf4_T : Engine4.calculateMatchConfidence exRowS exRowT exMaps exCfg4 = 1 := by
  have hw : Engine4.getFieldWeight "k" = 1 := by decide
  have hvm : Engine4.valuesMatch (rowGet exRowS "k") (rowGet exRowT "k") exCfg4 = true := by
    decide
  unfold Engine4.calculateMatchConfidence
  simp only [exMaps, List.foldl]
  rw [if_neg (by decide : ¬ ("k" = "" ∨ "k" = ""))]
  norm_num [hvm, hw]

/-- Confidence of the second example pair in the streaming engine. -/
theorem ex_conf4_T2 : Engine4.calculateMatchConfidence exRowS exRowT2 exMaps exCfg4 = 1 := by
  have hw : Engine4.getFieldWeight "k" = 1 := by decide
  have hvm : Engine4.valuesMatch (rowGet exRowS "k") (rowGet exRowT2 "k") exCfg4 = true := by
    decide
  unfold Engine4.calculateMatchConfidence
  simp only [exMaps, List.foldl]
  rw [if_neg (by decide : ¬ ("k" = "" ∨ "k" = ""))]
  norm_num [hvm, hw]

/-- The example pair has no discrepancies in the streaming engine. -/
theorem ex_disc4_T : Engine4.calculateDiscrepancies exRowS exRowT exMaps = [] := by
  have h10 : rowGet exRowS "k" = some 10 := by decide
  have h10t : rowGet exRowT "k" = some 10 := by decide
  unfold Engine4.calculateDiscrepancies
  simp only [exMaps, List.filterMap, h10, h10t]
  norm_num

/-- Window-start advance on the example batch. -/
theorem ex_adv : Engine4.advanceJ exRecT exCfg4 (some 10) [] 3 0 = 0 := by decide

/-- Window scan on the example batch: the first duplicate target wins. -/
theorem ex_scan : Engine4.scanBest exRecT exMaps exCfg4 ⟨0, some 10, exRowS⟩ [] 3 0 (-1) none
    = (1, some 0) := by
  have hT0 : exRecT[(0 : ℕ)]? = some ⟨0, some 10, exRowT⟩ := by decide
  have hT1 : exRecT[(1 : ℕ)]? = some ⟨1, some 10, exRowT2⟩ := by decide
  have hT2 : exRecT[(2 : ℕ)]? = none := by decide
  have hcomp : Engine4.compareSortValues (some 10) (some 10) exCfg4.tolerance
      exCfg4.toleranceUnit = 0 := by decide
  simp only [Engine4.scanBest, hT0, hT1, hT2, hcomp]
  norm_num [ex_conf4_T, ex_conf4_T2]

/-- Match verdict of the claimed example pair in the streaming engine. -/
theorem ex_cm4 : Engine4.createMatchFromRecords ⟨0, some 10, exRowS⟩ ⟨0, some 10, exRowT⟩
    exMaps exCfg4 = ⟨.matched, some exRowS, some exRowT, some 1, []⟩ := by
  unfold Engine4.createMatchFromRecords
  norm_num [ex_conf4_T, ex_disc4_T]

/-- Streaming run on the example batch: one target is claimed, the
duplicate becomes unmatched-target. -/
theorem ex_st : Engine4.twoPointerReconciliation exRecS exRecT exMaps exCfg4 =
    [⟨.matched, some exRowS, some exRowT, some 1, []⟩,
     ⟨.unmatchedTarget, none, some exRowT2, some 0, []⟩] := by
  have hT0 : exRecT[(0 : ℕ)]? = some ⟨0, some 10, exRowT⟩ := by decide
  unfold Engine4.twoPointerReconciliation Engine4.twoPointerReconciliationI
  simp only [Engine4.twoPointerLoop, exRecS]
  rw [show exRecT.length + 1 = 3 from by decide]
  rw [ex_adv, ex_scan]
  norm_num [hT0, ex_cm4]
  decide

/-- Record construction on the example source dataset. -/
theorem ex_build_s : Engine4.buildRecords [exRowS] "k" = exRecS := by decide

/-- Record construction on the example target dataset. -/
theorem ex_build_t : Engine4.buildRecords [exRowT, exRowT2] "k" = exRecT := by decide

/-- Claim C4, counterexample: on one source row and two target rows that
both match it (sort keys totally ordered, `matchStrategy = exact`), the
in-memory engine emits two matched verdicts while the streaming engine
emits one matched and one unmatched-target verdict — different multisets
even after projecting every verdict to (status, source row, target
row). -/
theorem claim_C4_counterexample :
    (↑((Engine6.reconcile [exRowS] [exRowT, exRowT2] exMaps exCfg6).map verdictCore) :
        Multiset (Engine6.RStatus × Option RRow × Option RRow)) ≠
      ↑((Engine4.twoPointerReconciliation (Engine4.buildRecords [exRowS] "k")
          (Engine4.buildRecords [exRowT, exRowT2] "k") exMaps exCfg4).map verdictCore) := by
  rw [ex_reconcile_two, ex_build_s, ex_build_t, ex_st]
  decide

/-- Characterisation of `compareSortValues` on two present values under the `exact` tolerance unit: the comparison is zero, positive or negative exactly as the values are equal, the target is below the source, or the source is below the target. -/
theorem compareSortValues_exact (a b tol : ℚ) :
    (Engine4.compareSortValues (some a) (some b) tol .exact = 0 ↔ a = b) ∧
    (Engine4.compareSortValues (some a) (some b) tol .exact > 0 ↔ b < a) ∧
    (Engine4.compareSortValues (some a) (some b) tol .exact < 0 ↔ a < b) := by
  unfold Engine4.compareSortValues
  dsimp only
  rw [if_pos (Or.inr rfl)]
  by_cases hab : a = b
  · subst hab
    simp
  · rw [if_neg hab]
    rcases lt_trichotomy a b with h | h | h
    · rw [if_pos h]
      constructor
      · constructor <;> intro hx
        · norm_num at hx
        · exact absurd hx hab
      constructor
      · constructor <;> intro hx
        · norm_num at hx
        · exact absurd hx (by intro h2; exact absurd (h.trans h2) (lt_irrefl a))
      · constructor <;> intro hx
        · exact h
        · norm_num
    · exact absurd h hab
    · rw [if_neg (by exact not_lt.mpr (le_of_lt h))]
      constructor
      · constructor <;> intro hx
        · norm_num at hx
        · exact absurd hx hab
      constructor
      · constructor <;> intro hx
        · exact h
        · norm_num
      · constructor <;> intro hx
        · norm_num at hx
        · exact absurd hx (by intro h2; exact absurd (h.trans h2) (lt_irrefl b))

/-- Field weights of the streaming engine are positive. -/
theorem getFieldWeight4_pos (s : String) : 0 < Engine4.getFieldWeight s := by
  unfold Engine4.getFieldWeight
  dsimp only
  split
  · norm_num
  · split
    · norm_num
    · split
      · norm_num
      · norm_num

/-- Match confidence of the streaming engine is never negative. -/
theorem conf4_nonneg (sourceRow targetRow : RRow) (maps : List CMapping)
    (cfg : Engine4.SCfg) :
    0 ≤ Engine4.calculateMatchConfidence sourceRow targetRow maps cfg := by
  unfold Engine4.calculateMatchConfidence
  have haux : ∀ (l : List CMapping) (acc : ℚ × ℚ), 0 ≤ acc.1 → 0 ≤ acc.2 →
      0 ≤ (l.foldl (fun (acc : ℚ × ℚ) m =>
        match m.sourceColumn, m.targetColumn with
        | some sc, some tc =>
            if sc = "" ∨ tc = "" then acc
            else
              let sourceValue := rowGet sourceRow sc
              let targetValue := rowGet targetRow tc
              let weight := Engine4.getFieldWeight sc
              if Engine4.valuesMatch sourceValue targetValue cfg then
                (acc.1 + weight, acc.2 + weight)
              else
                (acc.1 + weight, acc.2)
        | _, _ => acc) acc).1 ∧
      0 ≤ (l.foldl (fun (acc : ℚ × ℚ) m =>
        match m.sourceColumn, m.targetColumn with
        | some sc, some tc =>
            if sc = "" ∨ tc = "" then acc
            else
              let sourceValue := rowGet sourceRow sc
              let targetValue := rowGet targetRow tc
              let weight := Engine4.getFieldWeight sc
              if Engine4.valuesMatch sourceValue targetValue cfg then
                (acc.1 + weight, acc.2 + weight)
              else
                (acc.1 + weight, acc.2)
        | _, _ => acc) acc).2 := by
    intro l
    induction l with
    | nil => intro acc h1 h2; exact ⟨h1, h2⟩
    | cons m rest ih =>
        intro acc h1 h2
        obtain ⟨msc, mtc⟩ := m
        simp only [List.foldl]
        rcases msc with _ | sc
        · exact ih acc h1 h2
        · rcases mtc with _ | tc
          · exact ih acc h1 h2
          · dsimp only
            by_cases hemp : sc = "" ∨ tc = ""
            · rw [if_pos hemp]
              exact ih acc h1 h2
            · rw [if_neg hemp]
              have hw2 := le_of_lt (getFieldWeight4_pos sc)
              split
              · exact ih _ (add_nonneg h1 hw2) (add_nonneg h2 hw2)
              · exact ih _ (add_nonneg h1 hw2) h2
  have h := haux maps (0, 0) le_rfl le_rfl
  dsimp only
  split
  · exact div_nonneg h.2 (le_of_lt (by assumption))
  · norm_num

/-- Members of a list strictly sorted by a key function are determined by their key. -/
theorem key_inj {α : Type} (f : α → ℚ) :
    ∀ (l : List α), l.Pairwise (fun a b => f a < f b) →
      ∀ x ∈ l, ∀ y ∈ l, f x = f y → x = y := by
  intro l
  induction l with
  | nil => intro _ x hx; exact absurd hx (List.not_mem_nil x)
  | cons a rest ih =>
      intro hp x hx y hy hf
      rw [List.pairwise_cons] at hp
      rcases List.mem_cons.mp hx with hxa | hx2
      · rcases List.mem_cons.mp hy with hya | hy2
        · rw [hxa, hya]
        · subst hxa
          exact absurd hf (ne_of_lt (hp.1 y hy2))
      · rcases List.mem_cons.mp hy with hya | hy2
        · subst hya
          exact absurd hf.symm (ne_of_lt (hp.1 x hx2))
        · exact ih hp.2 x hx2 y hy2 hf

/-- Over a strictly key-sorted list, filtering on one key value keeps at most the first hit, matching `find?`. -/
theorem filterMap_key_eq {α β : Type} (f : α → ℚ) (g : α → β) (x : ℚ) :
    ∀ (l : List α), l.Pairwise (fun a b => f a < f b) →
      l.filterMap (fun t => if f t = x then some (g t) else none) =
        match l.find? (fun t => decide (f t = x)) with
        | some t => [g t]
        | none => [] := by
  intro l
  induction l with
  | nil => intro _; rfl
  | cons a rest ih =>
      intro hp
      have hpa := List.pairwise_cons.mp hp
      by_cases ha : f a = x
      · rw [List.find?_cons_of_pos _ (by simp [ha])]
        rw [List.filterMap_cons, if_pos ha]
        have hrest : rest.filterMap (fun t => if f t = x then some (g t) else none) = [] := by
          rw [List.filterMap_eq_nil_iff]
          intro t ht
          rw [if_neg]
          intro hfx
          exact absurd (hfx.trans ha.symm) (ne_of_gt (hpa.1 t ht))
        dsimp only
        rw [hrest]
      · rw [List.find?_cons_of_neg _ (by simp [ha])]
        rw [List.filterMap_cons, if_neg ha]
        exact ih hpa.2

/-- A `flatMap` whose function yields singletons is a `map`. -/
theorem flatMap_singleton {α β : Type} (f : α → List β) (g : α → β) :
    ∀ (l : List α), (∀ x ∈ l, f x = [g x]) → l.flatMap f = l.map g := by
  intro l
  induction l with
  | nil => intro _; rfl
  | cons a rest ih =>
      intro h
      simp only [List.flatMap_cons, List.map_cons, h a (List.mem_cons_self a rest)]
      rw [ih (fun x hx => h x (List.mem_cons_of_mem a hx))]
      rfl

/-- An index-driven `filterMap` over `range l.length` equals the element-driven `filterMap`. -/
theorem range_getElem_filterMap {α β : Type} (g : α → Option β) :
    ∀ (l : List α),
      (List.range l.length).filterMap (fun k => (l[k]?).bind g) = l.filterMap g := by
  intro l
  induction l with
  | nil => rfl
  | cons a rest ih =>
      rw [List.length_cons, List.range_succ_eq_map]
      rw [List.filterMap_cons]
      simp only [List.getElem?_cons_zero, Option.some_bind]
      rw [List.filterMap_map]
      have hcomp : ((fun k => ((a :: rest)[k]?).bind g) ∘ Nat.succ) =
          (fun k => (rest[k]?).bind g) := by
        funext k
        simp [List.getElem?_cons_succ]
      rw [hcomp, ih]
      conv_rhs => rw [List.filterMap_cons]

/-- Canonical form of `findMatches` under the `exact` strategy on confidence-separated data: the survivor list is empty, or the single first equal-key target with its confidence. -/
theorem findMatches_canonical
    (T : List RRow) (maps : List CMapping) (cfg6 : RecCfg)
    (kS kT : RRow → ℚ) (s : RRow)
    (h1 : cfg6.matchStrategy = .exact)
    (h6 : T.Pairwise (fun a b => kT a < kT b))
    (h7 : ∀ t ∈ T, kS s = kT t → Engine6.calculateMatchConfidence s t maps cfg6 > 8 / 10)
    (h8 : ∀ t ∈ T, kS s ≠ kT t → Engine6.calculateMatchConfidence s t maps cfg6 ≤ 3 / 10) :
    Engine6.findMatches ⟨s, s⟩ (Engine6.transformIdentity T) maps cfg6 =
      match T.find? (fun t => decide (kT t = kS s)) with
      | some t => [(⟨t, t⟩, Engine6.calculateMatchConfidence s t maps cfg6)]
      | none => [] := by
  unfold Engine6.findMatches Engine6.transformIdentity
  rw [List.filterMap_map]
  have hcands : T.filterMap ((fun targetItem : Engine6.TData =>
        if Engine6.calculateMatchConfidence (Engine6.TData.transformedRow ⟨s, s⟩)
            targetItem.transformedRow maps cfg6 > 3 / 10 then
          some (targetItem,
            Engine6.calculateMatchConfidence (Engine6.TData.transformedRow ⟨s, s⟩)
              targetItem.transformedRow maps cfg6)
        else none) ∘ (fun r => ⟨r, r⟩)) =
      T.filterMap (fun t => if kT t = kS s then
        some ((⟨t, t⟩ : Engine6.TData),
          Engine6.calculateMatchConfidence s t maps cfg6) else none) := by
    apply List.filterMap_congr
    intro t ht
    simp only [Function.comp]
    by_cases hk : kT t = kS s
    · rw [if_pos (by
        have := h7 t ht hk.symm
        show Engine6.calculateMatchConfidence s t maps cfg6 > 3 / 10
        linarith), if_pos hk]
    · rw [if_neg (by
        have := h8 t ht (fun he => hk he.symm)
        show ¬ Engine6.calculateMatchConfidence s t maps cfg6 > 3 / 10
        intro hgt
        linarith), if_neg hk]
  rw [hcands]
  rw [filterMap_key_eq kT (fun t => ((⟨t, t⟩ : Engine6.TData),
    Engine6.calculateMatchConfidence s t maps cfg6)) (kS s) T h6]
  rw [h1]
  cases hfind : T.find? (fun t => decide (kT t = kS s)) with
  | none => rfl
  | some t =>
      have hmem := List.mem_of_find?_eq_some hfind
      have hpt : kT t = kS s := by
        have := List.find?_some hfind
        simpa using this
      have hconf := h7 t hmem hpt.symm
      dsimp only
      simp only [List.insertionSort, List.orderedInsert, List.filter]
      rw [show (decide (Engine6.calculateMatchConfidence s t maps cfg6 > 8 / 10)) = true
        from by simp [hconf]]

/-- Canonical form of the in-memory `reconcile` under the `exact` strategy on key- and confidence-separated data: one verdict per source row via the first equal-key target, followed by one unmatched-target verdict for every target row whose key no source row carries. -/
theorem reconcile_canonical
    (S T : List RRow) (maps : List CMapping) (cfg6 : RecCfg)
    (kS kT : RRow → ℚ)
    (h1 : cfg6.matchStrategy = .exact)
    (h6 : T.Pairwise (fun a b => kT a < kT b))
    (h7 : ∀ s ∈ S, ∀ t ∈ T, kS s = kT t →
      Engine6.calculateMatchConfidence s t maps cfg6 > 8 / 10)
    (h8 : ∀ s ∈ S, ∀ t ∈ T, kS s ≠ kT t →
      Engine6.calculateMatchConfidence s t maps cfg6 ≤ 3 / 10)
    (h11 : ∀ t ∈ T, ∀ t2 ∈ T, Engine6.getRowId t = Engine6.getRowId t2 → t = t2) :
    (Engine6.reconcile S T maps cfg6).map verdictCore =
      S.map (fun s =>
        match T.find? (fun t => decide (kT t = kS s)) with
        | some t =>
            (if (Engine6.calculateDiscrepancies s t maps cfg6).isEmpty
              then Engine6.RStatus.matched else .discrepancy, some s, some t)
        | none => (.unmatchedSource, some s, none))
      ++ T.filterMap (fun t =>
        if ∃ s ∈ S, kS s = kT t then none
        else some (Engine6.RStatus.unmatchedTarget, none, some t)) := by
  unfold Engine6.reconcile
  dsimp only
  have hsv : (Engine6.transformIdentity S).flatMap
      (fun sourceItem =>
        let found := Engine6.findMatches sourceItem (Engine6.transformIdentity T) maps cfg6
        if found.isEmpty then
          [(⟨.unmatchedSource, some sourceItem.transformedRow, none, none, []⟩ :
            Engine6.Verdict)]
        else
          found.map (fun m =>
            let discrepancies := Engine6.calculateDiscrepancies sourceItem.transformedRow
              m.1.transformedRow maps cfg6
            ⟨if discrepancies.isEmpty then .matched else .discrepancy,
              some sourceItem.transformedRow, some m.1.transformedRow, some m.2,
              discrepancies⟩)) =
      (Engine6.transformIdentity S).map
        (fun sourceItem =>
          match T.find? (fun t => decide (kT t = kS sourceItem.transformedRow)) with
          | some t =>
              (⟨if (Engine6.calculateDiscrepancies sourceItem.transformedRow t maps
                  cfg6).isEmpty then .matched else .discrepancy,
                some sourceItem.transformedRow, some t,
                some (Engine6.calculateMatchConfidence sourceItem.transformedRow t maps cfg6),
                Engine6.calculateDiscrepancies sourceItem.transformedRow t maps cfg6⟩ :
                Engine6.Verdict)
          | none => ⟨.unmatchedSource, some sourceItem.transformedRow, none, none, []⟩) := by
    apply flatMap_singleton
    intro si hsi
    rcases List.mem_map.mp hsi with ⟨s, hsS, rfl⟩
    have hfm := findMatches_canonical T maps cfg6 kS kT s h1 h6
      (fun t ht hk => h7 s hsS t ht hk) (fun t ht hk => h8 s hsS t ht hk)
    dsimp only
    rw [hfm]
    cases hfind : T.find? (fun t => decide (kT t = kS s)) with
    | none => rfl
    | some t => rfl
  rw [hsv]
  rw [List.map_append]
  congr 1
  · rw [List.map_map]
    unfold Engine6.transformIdentity
    rw [List.map_map]
    apply List.map_congr_left
    intro s hsS
    simp only [Function.comp]
    cases hfind : T.find? (fun t => decide (kT t = kS s)) with
    | none => rfl
    | some t => rfl
  · -- target side
    unfold Engine6.transformIdentity
    rw [List.map_filterMap]
    rw [List.filterMap_map]
    have hids : ∀ t ∈ T,
        (Engine6.getRowId t ∈
          ((List.map
            (fun sourceItem =>
              match T.find? (fun t => decide (kT t = kS sourceItem.transformedRow)) with
              | some t =>
                  (⟨if (Engine6.calculateDiscrepancies sourceItem.transformedRow t maps
                      cfg6).isEmpty then .matched else .discrepancy,
                    some sourceItem.transformedRow, some t,
                    some (Engine6.calculateMatchConfidence sourceItem.transformedRow t maps
                      cfg6),
                    Engine6.calculateDiscrepancies sourceItem.transformedRow t maps cfg6⟩ :
                    Engine6.Verdict)
              | none => ⟨.unmatchedSource, some sourceItem.transformedRow, none, none,
                  []⟩)
            (List.map (fun r => (⟨r, r⟩ : Engine6.TData)) S)).filterMap
              (fun r => r.targetRow)).map Engine6.getRowId) ↔
        ∃ s ∈ S, kS s = kT t := by
      intro t ht
      constructor
      · intro hmem
        rcases List.mem_map.mp hmem with ⟨t2, hmem2, hid⟩
        rcases List.mem_filterMap.mp hmem2 with ⟨v, hv, htr⟩
        rcases List.mem_map.mp hv with ⟨si, hsi, rfl⟩
        rcases List.mem_map.mp hsi with ⟨s, hsS, rfl⟩
        cases hfind : T.find? (fun t3 => decide (kT t3 = kS s)) with
        | none => rw [hfind] at htr; exact absurd htr (by simp)
        | some t3 =>
            rw [hfind] at htr
            simp only at htr
            injection htr with htr
            have ht3 := List.mem_of_find?_eq_some hfind
            have hp3 : kT t3 = kS s := by simpa using List.find?_some hfind
            rw [← htr] at hid
            have heq := h11 t3 ht3 t ht hid
            rw [heq] at hp3
            exact ⟨s, hsS, hp3.symm⟩
      · rintro ⟨s, hsS, hks⟩
        have hsome : (T.find? (fun t3 => decide (kT t3 = kS s))).isSome := by
          rw [List.find?_isSome]
          exact ⟨t, ht, by simp [hks]⟩
        rcases Option.isSome_iff_exists.mp hsome with ⟨t3, hfind⟩
        have ht3 := List.mem_of_find?_eq_some hfind
        have hp3 : kT t3 = kS s := by simpa using List.find?_some hfind
        have ht3t : t3 = t := key_inj kT T h6 t3 ht3 t ht (hp3.trans hks)
        refine List.mem_map.mpr ⟨t, ?_, rfl⟩
        refine List.mem_filterMap.mpr ?_
        refine ⟨_, List.mem_map.mpr ⟨⟨s, s⟩, List.mem_map.mpr ⟨s, hsS, rfl⟩, rfl⟩, ?_⟩
        dsimp only
        rw [hfind]
        rw [ht3t]
    apply List.filterMap_congr
    intro t ht
    simp only [Function.comp]
    by_cases hc : ∃ s ∈ S, kS s = kT t
    · rw [if_pos ((hids t ht).mpr hc), if_pos hc]
      rfl
    · rw [if_neg (fun hmem => hc ((hids t ht).mp hmem)), if_neg hc]
      rfl

/-- Window invariant of `advanceJ`: every index below the advanced window start is matched or strictly below the source sort value. -/
theorem advanceJ_inv (Trec : List Engine4.SRecord) (cfg : Engine4.SCfg)
    (matched : List ℕ) (hunit : cfg.toleranceUnit = .exact) (sv : ℚ) (kT : RRow → ℚ)
    (hsv : ∀ (k : ℕ) (tr : Engine4.SRecord), Trec[k]? = some tr → tr.sortValue = some (kT tr.transformedRow)) :
    ∀ (fuel j : ℕ),
      (∀ k, k < j → k ∈ matched ∨
        ∀ tr : Engine4.SRecord, Trec[k]? = some tr → kT tr.transformedRow < sv) →
      ∀ k, k < Engine4.advanceJ Trec cfg (some sv) matched fuel j →
        k ∈ matched ∨ ∀ tr : Engine4.SRecord, Trec[k]? = some tr → kT tr.transformedRow < sv := by
  intro fuel
  induction fuel with
  | zero =>
      intro j hj k hk
      exact hj k (by simpa [Engine4.advanceJ] using hk)
  | succ fuel ih =>
      intro j hj k hk
      simp only [Engine4.advanceJ] at hk
      cases hT : Trec[j]? with
      | none =>
          rw [hT] at hk
          exact hj k hk
      | some tr =>
          rw [hT] at hk
          dsimp only at hk
          by_cases hm : j ∈ matched
          · rw [if_pos hm] at hk
            exact hj k hk
          · rw [if_neg hm] at hk
            rw [hsv j tr hT, hunit] at hk
            by_cases hcomp : Engine4.compareSortValues (some sv)
                (some (kT tr.transformedRow)) cfg.tolerance .exact > 0
            · rw [if_pos hcomp] at hk
              have hlt : kT tr.transformedRow < sv :=
                ((compareSortValues_exact sv (kT tr.transformedRow) cfg.tolerance).2.1).mp hcomp
              refine ih (j + 1) ?_ k hk
              intro k2 hk2
              rcases Nat.lt_succ_iff_lt_or_eq.mp hk2 with h | rfl
              · exact hj k2 h
              · refine Or.inr ?_
                intro tr2 hT2
                rw [hT2] at hT
                injection hT with hT
                rw [hT]
                exact hlt
            · rw [if_neg hcomp] at hk
              exact hj k hk

/-- The scan of `twoPointerReconciliation` leaves its accumulator untouched when no unmatched target from the scan start onward carries the source key. -/
theorem scanBest_noeq (Trec : List Engine4.SRecord) (maps : List CMapping)
    (cfg : Engine4.SCfg) (matched : List ℕ) (hunit : cfg.toleranceUnit = .exact)
    (s : Engine4.SRecord) (sv : ℚ) (kT : RRow → ℚ)
    (hssv : s.sortValue = some sv)
    (hsv : ∀ (k : ℕ) (tr : Engine4.SRecord), Trec[k]? = some tr → tr.sortValue = some (kT tr.transformedRow)) :
    ∀ (fuel k : ℕ) (bc : ℚ) (bi : Option ℕ),
      (∀ k2, k ≤ k2 → k2 ∉ matched →
        ∀ tr : Engine4.SRecord, Trec[k2]? = some tr → kT tr.transformedRow ≠ sv) →
      Engine4.scanBest Trec maps cfg s matched fuel k bc bi = (bc, bi) := by
  intro fuel
  induction fuel with
  | zero => intro k bc bi _; rfl
  | succ fuel ih =>
      intro k bc bi hno
      simp only [Engine4.scanBest]
      cases hT : Trec[k]? with
      | none => rfl
      | some tr =>
          dsimp only
          by_cases hm : k ∈ matched
          · rw [if_pos hm]
            exact ih (k + 1) bc bi (fun k2 h2 => hno k2 (Nat.le_of_succ_le h2))
          · rw [if_neg hm]
            have hne := hno k le_rfl hm tr hT
            rw [hssv, hsv k tr hT, hunit]
            rcases lt_trichotomy (kT tr.transformedRow) sv with hlt | heq | hgt
            · rw [if_neg (by
                intro habs
                have := ((compareSortValues_exact sv (kT tr.transformedRow)
                  cfg.tolerance).2.2).mp habs
                exact absurd hlt (by linarith))]
              rw [if_neg (by
                intro habs
                have := ((compareSortValues_exact sv (kT tr.transformedRow)
                  cfg.tolerance).1).mp habs
                exact hne (by linarith))]
              exact ih (k + 1) bc bi (fun k2 h2 => hno k2 (Nat.le_of_succ_le h2))
            · exact absurd heq hne
            · rw [if_pos (((compareSortValues_exact sv (kT tr.transformedRow)
                cfg.tolerance).2.2).mpr hgt)]

/-- The scan of `twoPointerReconciliation` returns the unique unmatched equal-key target and its confidence when every target below it is strictly smaller and no other unmatched target carries the key. -/
theorem scanBest_found (Trec : List Engine4.SRecord) (maps : List CMapping)
    (cfg : Engine4.SCfg) (matched : List ℕ) (hunit : cfg.toleranceUnit = .exact)
    (s : Engine4.SRecord) (sv : ℚ) (kT : RRow → ℚ)
    (hssv : s.sortValue = some sv)
    (hsv : ∀ (k : ℕ) (tr : Engine4.SRecord), Trec[k]? = some tr →
      tr.sortValue = some (kT tr.transformedRow))
    (k0 : ℕ) (tr0 : Engine4.SRecord) (hT0 : Trec[k0]? = some tr0)
    (hm0 : k0 ∉ matched) (hk0 : kT tr0.transformedRow = sv)
    (hafter : ∀ k2, k0 < k2 → k2 ∉ matched →
      ∀ tr : Engine4.SRecord, Trec[k2]? = some tr → kT tr.transformedRow ≠ sv) :
    ∀ (fuel k : ℕ), k ≤ k0 → k0 - k < fuel →
      (∀ k2, k ≤ k2 → k2 < k0 → k2 ∉ matched →
        ∀ tr : Engine4.SRecord, Trec[k2]? = some tr → kT tr.transformedRow < sv) →
      Engine4.scanBest Trec maps cfg s matched fuel k (-1) none =
        (Engine4.calculateMatchConfidence s.transformedRow tr0.transformedRow maps cfg,
          some k0) := by
  intro fuel
  induction fuel with
  | zero => intro k hk hfuel _; omega
  | succ fuel ih =>
      intro k hk hfuel hbefore
      simp only [Engine4.scanBest]
      rcases eq_or_lt_of_le hk with rfl | hklt
      · rw [hT0]
        dsimp only
        rw [if_neg hm0]
        rw [hssv, hsv k tr0 hT0, hunit, hk0]
        have hcomp0 : Engine4.compareSortValues (some sv) (some sv) cfg.tolerance .exact = 0 :=
          ((compareSortValues_exact sv sv cfg.tolerance).1).mpr rfl
        rw [if_neg (by rw [hcomp0]; norm_num), if_pos hcomp0]
        have hc := conf4_nonneg s.transformedRow tr0.transformedRow maps cfg
        rw [if_pos (by linarith)]
        exact scanBest_noeq Trec maps cfg matched hunit s sv kT hssv hsv fuel (k + 1) _ _
          (fun k2 h2 hm2 => hafter k2 (by omega) hm2)
      · have hk0len : k0 < Trec.length := by
          rcases List.getElem?_eq_some.mp hT0 with ⟨h, _⟩
          exact h
        have hlen : k < Trec.length := by omega
        have hTk : Trec[k]? = some (Trec[k]) := List.getElem?_eq_getElem hlen
        rw [hTk]
        dsimp only
        by_cases hm : k ∈ matched
        · rw [if_pos hm]
          exact ih (k + 1) (by omega) (by omega) (fun k2 h2 => hbefore k2 (by omega))
        · rw [if_neg hm]
          have hlt := hbefore k le_rfl hklt hm (Trec[k]) hTk
          rw [hssv, hsv k (Trec[k]) hTk, hunit]
          have hg : Engine4.compareSortValues (some sv)
              (some (kT (Trec[k]).transformedRow)) cfg.tolerance .exact > 0 :=
            ((compareSortValues_exact sv _ cfg.tolerance).2.1).mpr hlt
          rw [if_neg (by linarith), if_neg (by intro h0; rw [h0] at hg; norm_num at hg)]
          exact ih (k + 1) (by omega) (by omega) (fun k2 h2 => hbefore k2 (by omega))

/-- Records of an index-sorted target record list are determined by their key. -/
theorem trec_key_inj (Trec : List Engine4.SRecord) (kT : RRow → ℚ)
    (htsort : ∀ (k1 k2 : ℕ) (tr1 tr2 : Engine4.SRecord), Trec[k1]? = some tr1 →
      Trec[k2]? = some tr2 → k1 < k2 → kT tr1.transformedRow < kT tr2.transformedRow) :
    ∀ tr1 ∈ Trec, ∀ tr2 ∈ Trec,
      kT tr1.transformedRow = kT tr2.transformedRow → tr1 = tr2 := by
  intro tr1 h1 tr2 h2 hk
  rcases List.mem_iff_getElem?.mp h1 with ⟨k1, hk1⟩
  rcases List.mem_iff_getElem?.mp h2 with ⟨k2, hk2⟩
  rcases lt_trichotomy k1 k2 with h | h | h
  · exact absurd hk (ne_of_lt (htsort k1 k2 tr1 tr2 hk1 hk2 h))
  · rw [h] at hk1
    rw [hk1] at hk2
    injection hk2
  · exact absurd hk.symm (ne_of_lt (htsort k2 k1 tr2 tr1 hk2 hk1 h))

/-- Indices into an index-sorted target record list are determined by the record key. -/
theorem trec_idx_inj (Trec : List Engine4.SRecord) (kT : RRow → ℚ)
    (htsort : ∀ (k1 k2 : ℕ) (tr1 tr2 : Engine4.SRecord), Trec[k1]? = some tr1 →
      Trec[k2]? = some tr2 → k1 < k2 → kT tr1.transformedRow < kT tr2.transformedRow)
    (k1 k2 : ℕ) (tr1 tr2 : Engine4.SRecord) (hk1 : Trec[k1]? = some tr1)
    (hk2 : Trec[k2]? = some tr2)
    (hk : kT tr1.transformedRow = kT tr2.transformedRow) : k1 = k2 := by
  rcases lt_trichotomy k1 k2 with h | h | h
  · exact absurd hk (ne_of_lt (htsort k1 k2 tr1 tr2 hk1 hk2 h))
  · exact h
  · exact absurd hk.symm (ne_of_lt (htsort k2 k1 tr2 tr1 hk2 hk1 h))

/-- Canonical form of the two-pointer source sweep on strictly key-sorted records: one verdict per source record via the first equal-key target record, and the final claimed-index list holds exactly the target indices whose key some source record carries. -/
theorem twoPointerLoop_canonical (Trec : List Engine4.SRecord) (maps : List CMapping)
    (cfg : Engine4.SCfg) (kS kT : RRow → ℚ)
    (hunit : cfg.toleranceUnit = .exact)
    (hsv : ∀ (k : ℕ) (tr : Engine4.SRecord), Trec[k]? = some tr →
      tr.sortValue = some (kT tr.transformedRow))
    (htsort : ∀ (k1 k2 : ℕ) (tr1 tr2 : Engine4.SRecord), Trec[k1]? = some tr1 →
      Trec[k2]? = some tr2 → k1 < k2 → kT tr1.transformedRow < kT tr2.transformedRow) :
    ∀ (srcs : List Engine4.SRecord) (j : ℕ) (matched : List ℕ),
      (∀ sr ∈ srcs, sr.sortValue = some (kS sr.transformedRow)) →
      srcs.Pairwise (fun a b => kS a.transformedRow < kS b.transformedRow) →
      (∀ sr ∈ srcs, ∀ (k : ℕ) (tr : Engine4.SRecord), Trec[k]? = some tr →
        kT tr.transformedRow = kS sr.transformedRow →
        Engine4.calculateMatchConfidence sr.transformedRow tr.transformedRow maps cfg
          > 3 / 10) →
      (∀ k, k < j → k ∈ matched ∨ ∀ sr ∈ srcs, ∀ tr : Engine4.SRecord,
        Trec[k]? = some tr → kT tr.transformedRow < kS sr.transformedRow) →
      (∀ k ∈ matched, ∀ tr : Engine4.SRecord, Trec[k]? = some tr →
        ∀ sr ∈ srcs, kT tr.transformedRow ≠ kS sr.transformedRow) →
      ((Engine4.twoPointerLoop Trec maps cfg srcs j matched).1.map Engine4.IVerdict.v =
        srcs.map (fun sr =>
          match Trec.find?
              (fun tr => decide (kT tr.transformedRow = kS sr.transformedRow)) with
          | some tr => Engine4.createMatchFromRecords sr tr maps cfg
          | none => Engine4.createUnmatchedSourceResult sr)) ∧
      (∀ k, k ∈ (Engine4.twoPointerLoop Trec maps cfg srcs j matched).2 ↔
        k ∈ matched ∨ ∃ sr ∈ srcs, ∃ tr : Engine4.SRecord,
          Trec[k]? = some tr ∧ kT tr.transformedRow = kS sr.transformedRow) := by
  intro srcs
  induction srcs with
  | nil =>
      intro j matched _ _ _ _ _
      refine ⟨rfl, ?_⟩
      intro k
      simp [Engine4.twoPointerLoop]
  | cons s rest ih =>
      intro j matched hsrc hpair hconf hJ hM
      have hssv : s.sortValue = some (kS s.transformedRow) :=
        hsrc s (List.mem_cons_self s rest)
      have hpair' := (List.pairwise_cons.mp hpair).2
      have hlt_rest := (List.pairwise_cons.mp hpair).1
      simp only [Engine4.twoPointerLoop]
      rw [hssv]
      set j1 : ℕ := Engine4.advanceJ Trec cfg (some (kS s.transformedRow)) matched
        (Trec.length + 1) j with hj1def
      have hJ1 : ∀ k, k < j1 → k ∈ matched ∨
          ∀ tr : Engine4.SRecord, Trec[k]? = some tr →
            kT tr.transformedRow < kS s.transformedRow := by
        intro k hk
        refine advanceJ_inv Trec cfg matched hunit (kS s.transformedRow) kT hsv
          (Trec.length + 1) j ?_ k hk
        intro k2 hk2
        rcases hJ k2 hk2 with h | h
        · exact Or.inl h
        · exact Or.inr (fun tr htr => h s (List.mem_cons_self s rest) tr htr)
      by_cases hex : ∃ (k0 : ℕ) (tr0 : Engine4.SRecord), Trec[k0]? = some tr0 ∧
          kT tr0.transformedRow = kS s.transformedRow
      · obtain ⟨k0, tr0, hT0, hk0⟩ := hex
        have hm0 : k0 ∉ matched := fun hin =>
          hM k0 hin tr0 hT0 s (List.mem_cons_self s rest) hk0
        have hj1le : j1 ≤ k0 := by
          by_contra hlt
          rcases hJ1 k0 (by omega) with h | h
          · exact hm0 h
          · exact absurd (hk0 ▸ h tr0 hT0) (lt_irrefl _)
        have hk0len : k0 < Trec.length := by
          rcases List.getElem?_eq_some.mp hT0 with ⟨h, _⟩
          exact h
        have hscan : Engine4.scanBest Trec maps cfg s matched (Trec.length + 1) j1
            (-1) none =
            (Engine4.calculateMatchConfidence s.transformedRow tr0.transformedRow maps cfg,
              some k0) := by
          refine scanBest_found Trec maps cfg matched hunit s (kS s.transformedRow) kT
            hssv hsv k0 tr0 hT0 hm0 hk0 ?_ (Trec.length + 1) j1 hj1le (by omega) ?_
          · intro k2 hk2 hm2 tr htr
            exact ne_of_gt (hk0 ▸ htsort k0 k2 tr0 tr hT0 htr hk2)
          · intro k2 _ hk2 _ tr htr
            exact hk0 ▸ htsort k2 k0 tr tr0 htr hT0 hk2
        rw [hscan]
        dsimp only
        have hcgt : Engine4.calculateMatchConfidence s.transformedRow tr0.transformedRow
            maps cfg > 3 / 10 :=
          hconf s (List.mem_cons_self s rest) k0 tr0 hT0 hk0
        rw [if_pos hcgt, hT0]
        have ihres := ih j1 (k0 :: matched)
          (fun sr hsr => hsrc sr (List.mem_cons_of_mem s hsr)) hpair'
          (fun sr hsr => hconf sr (List.mem_cons_of_mem s hsr))
          (by
            intro k hk
            rcases hJ1 k hk with h | h
            · exact Or.inl (List.mem_cons_of_mem k0 h)
            · refine Or.inr ?_
              intro sr hsr tr htr
              exact lt_trans (h tr htr) (hlt_rest sr hsr))
          (by
            intro k hk tr htr sr hsr
            rcases List.mem_cons.mp hk with rfl | hk2
            · rw [htr] at hT0
              injection hT0 with hT0
              rw [← hT0] at hk0
              exact hk0 ▸ ne_of_lt (hlt_rest sr hsr)
            · exact hM k hk2 tr htr sr (List.mem_cons_of_mem s hsr))
        have hfind : Trec.find?
            (fun tr => decide (kT tr.transformedRow = kS s.transformedRow)) = some tr0 := by
          have hmem0 : tr0 ∈ Trec := List.mem_iff_getElem?.mpr ⟨k0, hT0⟩
          have hsome : (Trec.find?
              (fun tr => decide (kT tr.transformedRow = kS s.transformedRow))).isSome := by
            rw [List.find?_isSome]
            exact ⟨tr0, hmem0, by simp [hk0]⟩
          rcases Option.isSome_iff_exists.mp hsome with ⟨tr2, hfind2⟩
          have htr2mem := List.mem_of_find?_eq_some hfind2
          have htr2key : kT tr2.transformedRow = kS s.transformedRow := by
            simpa using List.find?_some hfind2
          rw [hfind2, trec_key_inj Trec kT htsort tr2 htr2mem tr0 hmem0 (htr2key.trans hk0.symm)]
        constructor
        · simp only [List.map_cons]
          rw [ihres.1, hfind]
        · intro k
          constructor
          · intro hk
            rcases (ihres.2 k).mp hk with h | h
            · rcases List.mem_cons.mp h with rfl | h2
              · exact Or.inr ⟨s, List.mem_cons_self s rest, tr0, hT0, hk0⟩
              · exact Or.inl h2
            · rcases h with ⟨sr, hsr, tr, htr, hkey⟩
              exact Or.inr ⟨sr, List.mem_cons_of_mem s hsr, tr, htr, hkey⟩
          · intro hk
            refine (ihres.2 k).mpr ?_
            rcases hk with h | ⟨sr, hsr, tr, htr, hkey⟩
            · exact Or.inl (List.mem_cons_of_mem k0 h)
            · rcases List.mem_cons.mp hsr with rfl | hsr2
              · have : k = k0 := trec_idx_inj Trec kT htsort k k0 tr tr0 htr hT0
                  (hkey.trans hk0.symm)
                exact Or.inl (this ▸ List.mem_cons_self k0 matched)
              · exact Or.inr ⟨sr, hsr2, tr, htr, hkey⟩
      · have hno : ∀ k2, j1 ≤ k2 → k2 ∉ matched →
            ∀ tr : Engine4.SRecord, Trec[k2]? = some tr →
              kT tr.transformedRow ≠ kS s.transformedRow := by
          intro k2 _ _ tr htr habs
          exact hex ⟨k2, tr, htr, habs⟩
        have hscan : Engine4.scanBest Trec maps cfg s matched (Trec.length + 1) j1
            (-1) none = (-1, none) :=
          scanBest_noeq Trec maps cfg matched hunit s (kS s.transformedRow) kT hssv hsv
            (Trec.length + 1) j1 (-1) none hno
        rw [hscan]
        have hfind : Trec.find?
            (fun tr => decide (kT tr.transformedRow = kS s.transformedRow)) = none := by
          rw [List.find?_eq_none]
          intro tr htr
          rcases List.mem_iff_getElem?.mp htr with ⟨k, hk⟩
          simp only [decide_eq_true_eq]
          intro habs
          exact hex ⟨k, tr, hk, habs⟩
        have ihres := ih j1 matched
          (fun sr hsr => hsrc sr (List.mem_cons_of_mem s hsr)) hpair'
          (fun sr hsr => hconf sr (List.mem_cons_of_mem s hsr))
          (by
            intro k hk
            rcases hJ1 k hk with h | h
            · exact Or.inl h
            · refine Or.inr ?_
              intro sr hsr tr htr
              exact lt_trans (h tr htr) (hlt_rest sr hsr))
          (fun k hk tr htr sr hsr => hM k hk tr htr sr (List.mem_cons_of_mem s hsr))
        constructor
        · simp only [List.map_cons]
          rw [ihres.1, hfind]
        · intro k
          constructor
          · intro hk
            rcases (ihres.2 k).mp hk with h | ⟨sr, hsr, tr, htr, hkey⟩
            · exact Or.inl h
            · exact Or.inr ⟨sr, List.mem_cons_of_mem s hsr, tr, htr, hkey⟩
          · intro hk
            refine (ihres.2 k).mpr ?_
            rcases hk with h | ⟨sr, hsr, tr, htr, hkey⟩
            · exact Or.inl h
            · rcases List.mem_cons.mp hsr with rfl | hsr2
              · exact absurd ⟨k, tr, htr, hkey⟩ hex
              · exact Or.inr ⟨sr, hsr2, tr, htr, hkey⟩

/-- Indexing the record list built from a row list projects the indexing of the row list. -/
theorem buildRecords_getElem? (T : List RRow) (sk : String) (k : ℕ) :
    (Engine4.buildRecords T sk)[k]? =
      (T[k]?).map (fun t => (⟨k, Engine4.extractSortValue t sk, t⟩ : Engine4.SRecord)) := by
  unfold Engine4.buildRecords
  rw [List.getElem?_map, List.getElem?_enum, Option.map_map]
  rfl

/-- Building records preserves the list length. -/
theorem buildRecords_length (T : List RRow) (sk : String) :
    (Engine4.buildRecords T sk).length = T.length := by
  unfold Engine4.buildRecords
  rw [List.length_map, List.enum_length]

/-- Searching the records built from an enumerated row tail projects to searching the rows. -/
theorem enumFrom_find?_map (q : RRow → Bool) (sk : String) :
    ∀ (l : List RRow) (n : ℕ),
      Option.map Engine4.SRecord.transformedRow
        (((l.enumFrom n).map
            (fun p => (⟨p.1, Engine4.extractSortValue p.2 sk, p.2⟩ : Engine4.SRecord))).find?
          (fun tr => q tr.transformedRow)) = l.find? q := by
  intro l
  induction l with
  | nil => intro n; rfl
  | cons a l ih =>
      intro n
      rw [List.enumFrom_cons, List.map_cons]
      cases hq : q a with
      | true =>
          rw [List.find?_cons_of_pos _ (by simpa using hq),
            List.find?_cons_of_pos _ (by simpa using hq)]
          rfl
      | false =>
          rw [List.find?_cons_of_neg _ (by simpa using hq),
            List.find?_cons_of_neg _ (by simpa using hq)]
          exact ih (n + 1)

/-- The transformed row of the first record hit in a built record list is the first row hit in the row list. -/
theorem find?_buildRecords (T : List RRow) (sk : String) (q : RRow → Bool) :
    Option.map Engine4.SRecord.transformedRow
      ((Engine4.buildRecords T sk).find? (fun tr => q tr.transformedRow)) = T.find? q := by
  unfold Engine4.buildRecords List.enum
  exact enumFrom_find?_map q sk T 0

/-- With a zero in-memory tolerance the two engines agree on whether the discrepancy list of a row pair is empty: the fallback threshold of the in-memory engine is the fixed `1e-6` of the streaming engine, and the lists differ only in the recorded column label. -/
theorem discrepancies_isEmpty_eq (s t : RRow) (maps : List CMapping) (cfg6 : RecCfg)
    (h2 : cfg6.tolerance = 0) :
    (Engine6.calculateDiscrepancies s t maps cfg6).isEmpty =
      (Engine4.calculateDiscrepancies s t maps).isEmpty := by
  unfold Engine6.calculateDiscrepancies Engine4.calculateDiscrepancies
  rw [Bool.eq_iff_iff, List.isEmpty_iff, List.isEmpty_iff, List.filterMap_eq_nil_iff,
    List.filterMap_eq_nil_iff, h2]
  constructor <;> intro h m hm <;> have hmm := h m hm <;>
    revert hmm <;>
    cases hsc : m.sourceColumn with
    | none => intro _; rfl
    | some sc =>
        cases htc : m.targetColumn with
        | none => intro _; rfl
        | some tc =>
            dsimp only
            by_cases hemp : sc = "" ∨ tc = ""
            · intro _
              rw [if_pos hemp]
            · rw [if_neg hemp, if_neg hemp]
              rw [if_pos rfl]
              intro hmm
              by_cases hb : (match rowGet s sc, rowGet t tc with
                | some a, some b => decide (|a - b| > 1 / 1000000)
                | none, none => false
                | _, _ => true) = true
              · rw [if_pos hb] at hmm
                exact absurd hmm (by simp)
              · rw [if_neg hb]

/-- Canonical form of `twoPointerReconciliation` on records built from strictly key-sorted rows with separated confidences: after projecting to (status, source row, target row) it is one verdict per source row via the first equal-key target, followed by one unmatched-target verdict for every target row whose key no source row carries — the in-memory canonical form, with this engine's discrepancy test deciding the status. -/
theorem twoPointer_canonical
    (S T : List RRow) (maps : List CMapping) (cfg4 : Engine4.SCfg)
    (skS skT : String) (kS kT : RRow → ℚ)
    (hunit : cfg4.toleranceUnit = .exact)
    (h3 : S.Pairwise (fun a b => kS a < kS b))
    (h6 : T.Pairwise (fun a b => kT a < kT b))
    (h4 : ∀ t ∈ T, Engine4.extractSortValue t skT = some (kT t))
    (h5 : ∀ s ∈ S, Engine4.extractSortValue s skS = some (kS s))
    (h9 : ∀ s ∈ S, ∀ t ∈ T, kS s = kT t →
      Engine4.calculateMatchConfidence s t maps cfg4 > 3 / 10) :
    (Engine4.twoPointerReconciliation (Engine4.buildRecords S skS)
        (Engine4.buildRecords T skT) maps cfg4).map verdictCore =
      S.map (fun s =>
        match T.find? (fun t => decide (kT t = kS s)) with
        | some t =>
            ((if (Engine4.calculateDiscrepancies s t maps).isEmpty
              then Engine6.RStatus.matched else .discrepancy), some s, some t)
        | none => (.unmatchedSource, some s, none))
      ++ T.filterMap (fun t =>
        if ∃ s ∈ S, kS s = kT t then none
        else some (Engine6.RStatus.unmatchedTarget, none, some t)) := by
  have hTget : ∀ k : ℕ, (Engine4.buildRecords T skT)[k]? =
      (T[k]?).map (fun t => (⟨k, Engine4.extractSortValue t skT, t⟩ : Engine4.SRecord)) :=
    buildRecords_getElem? T skT
  have hSget : ∀ k : ℕ, (Engine4.buildRecords S skS)[k]? =
      (S[k]?).map (fun s => (⟨k, Engine4.extractSortValue s skS, s⟩ : Engine4.SRecord)) :=
    buildRecords_getElem? S skS
  have hTlen : (Engine4.buildRecords T skT).length = T.length := buildRecords_length T skT
  have hsv : ∀ (k : ℕ) (tr : Engine4.SRecord),
      (Engine4.buildRecords T skT)[k]? = some tr →
      tr.sortValue = some (kT tr.transformedRow) := by
    intro k tr h
    rw [hTget k] at h
    rcases Option.map_eq_some'.mp h with ⟨t, hTk, rfl⟩
    exact h4 t (List.mem_iff_getElem?.mpr ⟨k, hTk⟩)
  have htsort : ∀ (k1 k2 : ℕ) (tr1 tr2 : Engine4.SRecord),
      (Engine4.buildRecords T skT)[k1]? = some tr1 →
      (Engine4.buildRecords T skT)[k2]? = some tr2 → k1 < k2 →
      kT tr1.transformedRow < kT tr2.transformedRow := by
    intro k1 k2 tr1 tr2 h1 h2 hlt
    rw [hTget k1] at h1
    rw [hTget k2] at h2
    rcases Option.map_eq_some'.mp h1 with ⟨t1, hT1, rfl⟩
    rcases Option.map_eq_some'.mp h2 with ⟨t2, hT2, rfl⟩
    rcases List.getElem?_eq_some.mp hT1 with ⟨hl1, hg1⟩
    rcases List.getElem?_eq_some.mp hT2 with ⟨hl2, hg2⟩
    have := (List.pairwise_iff_getElem.mp h6) k1 k2 hl1 hl2 hlt
    rw [hg1, hg2] at this
    exact this
  have hmemS : ∀ sr ∈ Engine4.buildRecords S skS, sr.transformedRow ∈ S ∧
      sr.sortValue = some (kS sr.transformedRow) := by
    intro sr hsr
    rcases List.mem_iff_getElem?.mp hsr with ⟨k, hk⟩
    rw [hSget k] at hk
    rcases Option.map_eq_some'.mp hk with ⟨s, hSk, rfl⟩
    have hsS : s ∈ S := List.mem_iff_getElem?.mpr ⟨k, hSk⟩
    exact ⟨hsS, h5 s hsS⟩
  have hmemT : ∀ tr ∈ Engine4.buildRecords T skT, tr.transformedRow ∈ T := by
    intro tr htr
    rcases List.mem_iff_getElem?.mp htr with ⟨k, hk⟩
    rw [hTget k] at hk
    rcases Option.map_eq_some'.mp hk with ⟨t, hTk, rfl⟩
    exact List.mem_iff_getElem?.mpr ⟨k, hTk⟩
  have hpairS : (Engine4.buildRecords S skS).Pairwise
      (fun a b => kS a.transformedRow < kS b.transformedRow) := by
    rw [List.pairwise_iff_getElem]
    intro i j hi hj hij
    have hSi : (Engine4.buildRecords S skS)[i]? = some ((Engine4.buildRecords S skS)[i]) :=
      List.getElem?_eq_getElem hi
    have hSj : (Engine4.buildRecords S skS)[j]? = some ((Engine4.buildRecords S skS)[j]) :=
      List.getElem?_eq_getElem hj
    rw [hSget i] at hSi
    rw [hSget j] at hSj
    rcases Option.map_eq_some'.mp hSi with ⟨s1, hS1, hg1⟩
    rcases Option.map_eq_some'.mp hSj with ⟨s2, hS2, hg2⟩
    rcases List.getElem?_eq_some.mp hS1 with ⟨hl1, hgg1⟩
    rcases List.getElem?_eq_some.mp hS2 with ⟨hl2, hgg2⟩
    have := (List.pairwise_iff_getElem.mp h3) i j hl1 hl2 hij
    rw [hgg1, hgg2] at this
    rw [← hg1, ← hg2]
    exact this
  have hconfS : ∀ sr ∈ Engine4.buildRecords S skS, ∀ (k : ℕ) (tr : Engine4.SRecord),
      (Engine4.buildRecords T skT)[k]? = some tr →
      kT tr.transformedRow = kS sr.transformedRow →
      Engine4.calculateMatchConfidence sr.transformedRow tr.transformedRow maps cfg4
        > 3 / 10 := by
    intro sr hsr k tr htr hkey
    exact h9 sr.transformedRow (hmemS sr hsr).1 tr.transformedRow
      (hmemT tr (List.mem_iff_getElem?.mpr ⟨k, htr⟩)) hkey.symm
  obtain ⟨L1, L2⟩ := twoPointerLoop_canonical (Engine4.buildRecords T skT) maps cfg4 kS kT
    hunit hsv htsort (Engine4.buildRecords S skS) 0 []
    (fun sr hsr => (hmemS sr hsr).2) hpairS hconfS
    (by intro k hk; omega)
    (by intro k hk; exact absurd hk (List.not_mem_nil k))
  unfold Engine4.twoPointerReconciliation Engine4.twoPointerReconciliationI
  dsimp only
  rw [List.map_append, List.map_append]
  congr 1
  · rw [L1, List.map_map]
    rw [show Engine4.buildRecords S skS = S.enum.map
      (fun p : ℕ × RRow =>
        (⟨p.1, Engine4.extractSortValue p.2 skS, p.2⟩ : Engine4.SRecord)) from rfl]
    rw [List.map_map]
    have hpt : ∀ p ∈ S.enum,
        ((verdictCore ∘ fun sr =>
          match (Engine4.buildRecords T skT).find?
              (fun tr => decide (kT tr.transformedRow = kS sr.transformedRow)) with
          | some tr => Engine4.createMatchFromRecords sr tr maps cfg4
          | none => Engine4.createUnmatchedSourceResult sr) ∘
          (fun p : ℕ × RRow =>
            (⟨p.1, Engine4.extractSortValue p.2 skS, p.2⟩ : Engine4.SRecord))) p =
        ((fun s =>
          match T.find? (fun t => decide (kT t = kS s)) with
          | some t =>
              ((if (Engine4.calculateDiscrepancies s t maps).isEmpty
                then Engine6.RStatus.matched else .discrepancy), some s, some t)
          | none => (Engine6.RStatus.unmatchedSource, some s, none)) ∘ Prod.snd) p := by
      intro p _
      simp only [Function.comp]
      have hfb := find?_buildRecords T skT (fun t => decide (kT t = kS p.2))
      cases hfind : T.find? (fun t => decide (kT t = kS p.2)) with
      | none =>
          rw [hfind] at hfb
          rw [Option.map_eq_none'.mp hfb]
          rfl
      | some t =>
          rw [hfind] at hfb
          rcases Option.map_eq_some'.mp hfb with ⟨tr, htr, htrrow⟩
          rw [htr, ← htrrow]
          rfl
    rw [List.map_congr_left hpt]
    rw [← List.map_map, List.enum_map_snd]
  · rw [List.map_map, List.map_filterMap, hTlen]
    have hpt : ∀ k ∈ List.range T.length,
        (Option.map (verdictCore ∘ Engine4.IVerdict.v)
          (if k ∈ (Engine4.twoPointerLoop (Engine4.buildRecords T skT) maps cfg4
              (Engine4.buildRecords S skS) 0 []).2 then none
          else
            match (Engine4.buildRecords T skT)[k]? with
            | some tr => some (⟨Engine4.createUnmatchedTargetResult tr, some k⟩ :
                Engine4.IVerdict)
            | none => none)) =
        ((T[k]?).bind (fun t =>
          if ∃ s ∈ S, kS s = kT t then none
          else some (Engine6.RStatus.unmatchedTarget, none, some t))) := by
      intro k hk
      have hklen : k < T.length := List.mem_range.mp hk
      have hTk : T[k]? = some (T[k]) := List.getElem?_eq_getElem hklen
      have hTreck : (Engine4.buildRecords T skT)[k]? =
          some ⟨k, Engine4.extractSortValue (T[k]) skT, T[k]⟩ := by
        rw [hTget k, hTk]
        rfl
      have hiff : k ∈ (Engine4.twoPointerLoop (Engine4.buildRecords T skT) maps cfg4
          (Engine4.buildRecords S skS) 0 []).2 ↔ ∃ s ∈ S, kS s = kT (T[k]) := by
        rw [L2 k]
        constructor
        · intro h
          rcases h with h | ⟨sr, hsr, tr, htr, hkey⟩
          · exact absurd h (List.not_mem_nil k)
          · rw [hTreck] at htr
            injection htr with htr
            rw [← htr] at hkey
            exact ⟨sr.transformedRow, (hmemS sr hsr).1, hkey.symm⟩
        · rintro ⟨s, hsS, hks⟩
          refine Or.inr ?_
          rcases List.mem_iff_getElem?.mp hsS with ⟨i, hSi⟩
          refine ⟨⟨i, Engine4.extractSortValue s skS, s⟩, ?_, ⟨k, Engine4.extractSortValue
            (T[k]) skT, T[k]⟩, hTreck, hks.symm⟩
          refine List.mem_iff_getElem?.mpr ⟨i, ?_⟩
          rw [hSget i, hSi]
          rfl
      rw [hTk]
      by_cases hc : ∃ s ∈ S, kS s = kT (T[k])
      · rw [if_pos (hiff.mpr hc)]
        show (none : Option (Engine6.RStatus × Option RRow × Option RRow)) =
          if ∃ s ∈ S, kS s = kT (T[k]) then none else _
        rw [if_pos hc]
      · rw [if_neg (fun h => hc (hiff.mp h)), hTreck]
        show some _ = if ∃ s ∈ S, kS s = kT (T[k]) then none else _
        rw [if_neg hc]
        rfl
    rw [List.filterMap_congr hpt]
    exact range_getElem_filterMap _ T

/-- Claim C4, amended: with `matchStrategy = exact` on both engines, exact tolerance unit, zero in-memory tolerance, sort keys extracted totally and strictly increasing on both datasets, equal-key pairs above both engines' acceptance thresholds, unequal-key pairs below the in-memory candidate threshold, and injective target row ids, the in-memory engine and the streaming two-pointer engine produce the same multiset of verdicts projected to (status, source row, target row). -/
theorem claim_C4_amended
    (S T : List RRow) (maps : List CMapping) (cfg6 : RecCfg) (cfg4 : Engine4.SCfg)
    (skS skT : String) (kS kT : RRow → ℚ)
    (h1 : cfg6.matchStrategy = .exact)
    (h2 : cfg6.tolerance = 0)
    (hunit : cfg4.toleranceUnit = .exact)
    (h3 : S.Pairwise (fun a b => kS a < kS b))
    (h6 : T.Pairwise (fun a b => kT a < kT b))
    (h4 : ∀ t ∈ T, Engine4.extractSortValue t skT = some (kT t))
    (h5 : ∀ s ∈ S, Engine4.extractSortValue s skS = some (kS s))
    (h7 : ∀ s ∈ S, ∀ t ∈ T, kS s = kT t →
      Engine6.calculateMatchConfidence s t maps cfg6 > 8 / 10)
    (h8 : ∀ s ∈ S, ∀ t ∈ T, kS s ≠ kT t →
      Engine6.calculateMatchConfidence s t maps cfg6 ≤ 3 / 10)
    (h9 : ∀ s ∈ S, ∀ t ∈ T, kS s = kT t →
      Engine4.calculateMatchConfidence s t maps cfg4 > 3 / 10)
    (h11 : ∀ t ∈ T, ∀ t2 ∈ T, Engine6.getRowId t = Engine6.getRowId t2 → t = t2) :
    (↑((Engine6.reconcile S T maps cfg6).map verdictCore) :
        Multiset (Engine6.RStatus × Option RRow × Option RRow)) =
      ↑((Engine4.twoPointerReconciliation (Engine4.buildRecords S skS)
          (Engine4.buildRecords T skT) maps cfg4).map verdictCore) := by
  have hl : (Engine6.reconcile S T maps cfg6).map verdictCore =
      (Engine4.twoPointerReconciliation (Engine4.buildRecords S skS)
        (Engine4.buildRecords T skT) maps cfg4).map verdictCore := by
    rw [reconcile_canonical S T maps cfg6 kS kT h1 h6 h7 h8 h11,
      twoPointer_canonical S T maps cfg4 skS skT kS kT hunit h3 h6 h4 h5 h9]
    congr 1
    apply List.map_congr_left
    intro s _
    cases hfind : T.find? (fun t => decide (kT t = kS s)) with
    | none => rfl
    | some t =>
        dsimp only
        rw [discrepancies_isEmpty_eq s t maps cfg6 h2]
  rw [hl]

/-- Claim C4, witness: the amended equivalence instantiated on the concrete one-row example datasets. -/
theorem claim_C4_witness :
    (↑((Engine6.reconcile [exRowS] [exRowT] exMaps exCfg6).map verdictCore) :
        Multiset (Engine6.RStatus × Option RRow × Option RRow)) =
      ↑((Engine4.twoPointerReconciliation (Engine4.buildRecords [exRowS] "k")
          (Engine4.buildRecords [exRowT] "k") exMaps exCfg4).map verdictCore) :=
  claim_C4_amended [exRowS] [exRowT] exMaps exCfg6 exCfg4 "k" "k"
    (fun _ => 10) (fun _ => 10) rfl rfl rfl
    (by simp) (by simp)
    (by decide) (by decide)
    (by
      intro s hs t ht _
      rw [List.mem_singleton] at hs ht
      rw [hs, ht, ex_conf6_T]
      norm_num)
    (by
      intro s _ t _ hne
      exact absurd rfl hne)
    (by
      intro s hs t ht _
      rw [List.mem_singleton] at hs ht
      rw [hs, ht, ex_conf4_T]
      norm_num)
    (by
      intro t ht t2 ht2 _
      rw [List.mem_singleton] at ht ht2
      rw [ht, ht2])
